import Mathlib

/-!
Shallow embedding of the sweepstake-markup-generator domain package
(src/domain of the repository): the match CSV row parser, the error
aggregator with prefix views, the team audit, tournament
enrichment/validation and the prize computation engine, together with
theorems settling the frozen claims about this code.

Modelling conventions, applied uniformly:
* Go slices become Lean lists; collection entries are modelled as
  non-nil (the package's own constructors never insert nil entries into
  a collection), while the nullable `*Team` references inside a match
  (home/away/winner) become `Option Team`, since the code branches on
  their nilness.
* Go `uint8` values become `Nat` with an explicit `% 256` at every Go
  conversion; Go `int` becomes `Int` (its 64-bit wrap-around is out of
  reach for counters that only ever add small non-negative numbers, but
  is modelled exactly where a realistic input reaches it: `strconv.Atoi`
  and `uint8(...)` conversions).
* The mutable `MultiError` aggregator becomes explicit state passing:
  every parser returns its error messages (already carrying the
  prefixes added below it) and the caller wraps them in its own prefix,
  exactly mirroring how a prefixed view wraps a message before the base
  aggregator appends it to the shared list.
-/

set_option maxHeartbeats 1600000

namespace SMG

/-- A team as loaded from the teams JSON (src/domain/team.go `Team`). -/
structure Team where
  ID : String
  Name : String
  ImageURL : String
deriving DecidableEq

/-- One goal/card event of the match CSV mini-grammar
(src/domain/match.go `MatchEvent`); `minute` and `offset` are Go `uint8`
fields, kept as `Nat` reduced modulo 256 at parse time. -/
structure MatchEvent where
  Name : String
  Minute : Nat
  Offset : Nat
deriving DecidableEq

/-- One side of a match (src/domain/match.go `MatchCompetitor`). -/
structure MatchCompetitor where
  Team : Option Team
  Goals : Nat
  YellowCards : Nat
  OwnGoals : List MatchEvent
  RedCards : List MatchEvent
deriving DecidableEq

/-- A parsed `dd/mm/yyyy hh:mm` timestamp; Go's zero `time.Time` is
modelled as `none` at the `Match` field. -/
structure DateTime where
  year : Nat
  month : Nat
  day : Nat
  hour : Nat
  minute : Nat
deriving DecidableEq

/-- A match (src/domain/match.go `Match`); `stage` is the Go
`MatchStage` uint8 (1 = group, 2 = knockout, 0 = invalid). -/
structure Match where
  ID : String
  Timestamp : Option DateTime
  Stage : Nat
  Home : MatchCompetitor
  Away : MatchCompetitor
  Winner : Option Team
  Completed : Bool
deriving DecidableEq

/-- A sweepstake participant (src/domain/sweepstake.go `Participant`). -/
structure Participant where
  TeamID : String
  Name : String
deriving DecidableEq

/-- A tournament (src/domain/tournament.go `Tournament`; the template
and flags play no part in the claims). -/
structure Tournament where
  ID : String
  Name : String
  ImageURL : String
  Teams : List Team
  Matches : List Match
deriving DecidableEq

/-- A sweepstake (src/domain/sweepstake.go `Sweepstake`; prize settings
and build flag play no part in the claims). -/
structure Sweepstake where
  ID : String
  Name : String
  ImageURL : String
  Tournament : Tournament
  Participants : List Participant
deriving DecidableEq

/-! ### Go string helpers -/

/-- Character list with leading and trailing space characters removed:
Go `strings.Trim(s, " ")` on the underlying bytes. -/
def trimSpacesList (cs : List Char) : List Char :=
  ((cs.dropWhile (fun c => c = ' ')).reverse.dropWhile (fun c => c = ' ')).reverse

/-- Go `strings.Trim(s, " ")`. -/
def goTrimSpaces (s : String) : String :=
  String.mk (trimSpacesList s.data)

/-- Splitting a character list on a separator character; auxiliary for
`goSplit` (structural recursion keeps it kernel-evaluable). -/
def splitCharAux (sep : Char) : List Char → List Char → List (List Char)
  | [], acc => [acc.reverse]
  | c :: cs, acc =>
    if c = sep then acc.reverse :: splitCharAux sep cs []
    else splitCharAux sep cs (c :: acc)

/-- Go `strings.Split(s, sep)` for a one-character separator: the list
of substrings between occurrences of `sep` (`""` yields `[""]`). -/
def goSplit (sep : Char) (s : String) : List String :=
  (splitCharAux sep s.data []).map String.mk

/-- Joining with a one-character separator (inverse of `goSplit` on the
tail pieces); auxiliary for `splitN2`. -/
def joinSep (sep : Char) : List String → String
  | [] => ""
  | [x] => x
  | x :: xs => x ++ String.mk [sep] ++ joinSep sep xs

/-- Go `strings.SplitN(s, sep, 2)` for a one-character separator: split
at the first occurrence only. -/
def splitN2 (sep : Char) (s : String) : List String :=
  match goSplit sep s with
  | [] => [s]
  | [x] => [x]
  | x :: rest => [x, joinSep sep rest]

/-- Value of a decimal digit character list, most significant first. -/
def digitsVal (cs : List Char) : Nat :=
  cs.foldl (fun acc c => acc * 10 + (c.toNat - 48)) 0

/-- The digit characters of `s` after an optional leading sign. -/
def intLiteralDigits (s : String) : List Char :=
  match s.data with
  | '-' :: cs => cs
  | '+' :: cs => cs
  | cs => cs

/-- A well-formed base-10 integer literal as Go `strconv.Atoi` accepts
one apart from its 64-bit range check: an optional sign followed by at
least one decimal digit. -/
def isIntLiteral (s : String) : Bool :=
  !(intLiteralDigits s).isEmpty && (intLiteralDigits s).all Char.isDigit

/-- Integer value denoted by a base-10 integer literal. -/
def intLiteralVal (s : String) : Int :=
  match s.data with
  | '-' :: cs => -(digitsVal cs : Int)
  | _ => (digitsVal (intLiteralDigits s) : Int)

/-- Go `strconv.Atoi`: an optional sign followed by one or more decimal
digits, the value required to fit a signed 64-bit int; otherwise the
`strconv` error message (`%q` quoting reproduced for inputs without
characters that Go would escape). -/
def goAtoi (s : String) : Except String Int :=
  if isIntLiteral s then
    let v := intLiteralVal s
    if v < -(2 ^ 63) ∨ 2 ^ 63 ≤ v then
      Except.error ("strconv.Atoi: parsing \"" ++ s ++ "\": value out of range")
    else Except.ok v
  else Except.error ("strconv.Atoi: parsing \"" ++ s ++ "\": invalid syntax")

/-! ### Row field parsers (src/domain/match.go) -/

/-- src/domain/match.go `parseUInt8`: empty input is 0 with no error, a
failed `Atoi` adds an error and yields 0, and otherwise Go's `uint8`
conversion keeps the low 8 bits, i.e. the value modulo 256. The second
component is the list of messages added to the `MultiError`. -/
def parseUInt8 (sInt : String) : Nat × List String :=
  if sInt = "" then (0, [])
  else
    match goAtoi sInt with
    | Except.error e => (0, ["invalid int: " ++ e])
    | Except.ok v => (Int.toNat (v % 256), [])

/-- src/domain/match.go `parseMatchEvent`: one `name:minute` or
`name:minute+offset` entry; minute and offset must be positive and are
then stored through Go `uint8` conversions (modulo 256). -/
def parseMatchEvent (sEvent : String) : Option MatchEvent × List String :=
  match goSplit ':' sEvent with
  | [rawName, minuteWithOffset] =>
    let name := goTrimSpaces rawName
    let pieces := splitN2 '+' minuteWithOffset
    let rawMinute := pieces.headD ""
    let rawOffset := if pieces.length = 2 then pieces.getD 1 "" else ""
    match goAtoi rawMinute with
    | Except.error e => (none, ["minute: invalid int: " ++ e])
    | Except.ok minute =>
      if minute < 1 then (none, ["minute: must be greater than 0"])
      else if rawOffset = "" then
        (some ⟨name, Int.toNat (minute % 256), 0⟩, [])
      else
        match goAtoi rawOffset with
        | Except.error e => (none, ["offset: invalid int: " ++ e])
        | Except.ok offset =>
          if offset < 1 then (none, ["offset: must be greater than 0"])
          else (some ⟨name, Int.toNat (minute % 256), Int.toNat (offset % 256)⟩, [])
  | _ => (none, ["invalid format"])

/-- src/domain/match.go `parseMatchEvents`: the `N;entry;...;entry`
own-goal / red-card field grammar. A bad count prefix or a count
mismatch yields no events; otherwise every entry is parsed, each failed
entry adds its error under an `event i: ` prefix and only the
successfully parsed entries are returned. -/
def parseMatchEvents (sEventsRaw : String) : List MatchEvent × List String :=
  let sEvents := goTrimSpaces sEventsRaw
  if sEvents = "" then ([], [])
  else
    let pieces := goSplit ';' sEvents
    match goAtoi (pieces.headD "") with
    | Except.error _ => ([], ["first element must provide count of remaining elements"])
    | Except.ok elemCount =>
      let elems := pieces.drop 1
      if (elems.length : Int) ≠ elemCount then
        ([], ["must have " ++ toString elemCount ++ " element" ++
          (if elemCount ≠ 1 then "s" else "")])
      else
        let results := elems.enum.map (fun p =>
          let r := parseMatchEvent p.2
          (r.1, r.2.map (fun m => "event " ++ toString (p.1 + 1) ++ ": " ++ m)))
        ((results.filterMap Prod.fst), (results.map Prod.snd).flatten)

/-- Go `isLeap` (time package): leap-year test used by day-of-month
validation. -/
def isLeapYear (y : Nat) : Bool :=
  y % 4 = 0 && (y % 100 ≠ 0 || y % 400 = 0)

/-- Days in a month, as Go's time parser validates the day field. -/
def daysInMonth (y m : Nat) : Nat :=
  if m = 2 then (if isLeapYear y then 29 else 28)
  else if m = 4 ∨ m = 6 ∨ m = 9 ∨ m = 11 then 30
  else 31

/-- Two fixed decimal digits, as Go's time parser reads a zero-padded
two-digit layout field. -/
def digit2 (a b : Char) : Option Nat :=
  if a.isDigit && b.isDigit then some ((a.toNat - 48) * 10 + (b.toNat - 48))
  else none

/-- Go `time.Parse("02/01/2006 15:04", s)`: fixed-width zero-padded
numeric fields with literal separators and nothing left over, followed
by the range checks Go performs (month 1-12, day 1 to the month's
length, hour at most 23, minute at most 59). -/
def goParseTimestamp (s : String) : Option DateTime :=
  match s.data with
  | [d1, d2, '/', m1, m2, '/', y1, y2, y3, y4, ' ', h1, h2, ':', n1, n2] =>
    match digit2 d1 d2, digit2 m1 m2, digit2 y1 y2, digit2 y3 y4,
        digit2 h1 h2, digit2 n1 n2 with
    | some day, some month, some yHi, some yLo, some hour, some minute =>
      let year := yHi * 100 + yLo
      if 1 ≤ month ∧ month ≤ 12 ∧ 1 ≤ day ∧ day ≤ daysInMonth year month ∧
          hour ≤ 23 ∧ minute ≤ 59 then
        some ⟨year, month, day, hour, minute⟩
      else none
    | _, _, _, _, _, _ => none
  | _ => none

/-- src/domain/match.go `parseTimestamp`: the trimmed `DATE + " " +
TIME` string; empty yields the zero time with no error and a parse
failure adds an error and yields the zero time. -/
def parseTimestamp (sDate sTime : String) : Option DateTime × List String :=
  let sTimestamp := goTrimSpaces (sDate ++ " " ++ sTime)
  if sTimestamp = "" then (none, [])
  else
    match goParseTimestamp sTimestamp with
    | none => (none, ["invalid timestamp format: " ++ sTimestamp])
    | some ts => (some ts, [])

/-- src/domain/match.go `convertToMatchStage`: `"GROUP"` and `"KO"` are
the only valid stages; anything else adds an error and yields the zero
stage. -/
def convertToMatchStage (s : String) : Nat × List String :=
  if s = "GROUP" then (1, [])
  else if s = "KO" then (2, [])
  else (0, ["invalid match stage: " ++ s])

/-- The fixed 16-column header of the matches CSV
(src/domain/match.go `matchesCSVHeader`). -/
def matchesCSVHeader : List String :=
  ["MATCH_ID", "DATE", "TIME", "STAGE", "COMPLETED", "WINNER_TEAM_ID",
   "HOME_TEAM_ID", "AWAY_TEAM_ID", "HOME_GOALS", "AWAY_GOALS",
   "HOME_YELLOW_CARDS", "AWAY_YELLOW_CARDS", "HOME_OG", "AWAY_OG",
   "HOME_RED_CARDS", "AWAY_RED_CARDS"]

/-- src/domain/match.go `transformCSVRowToMatch`: one data row to a
`Match` plus the error messages added to the row-scoped view, in the
order the row parser adds them (timestamp, stage, then the home and
away numeric and event fields, each under its field prefix). A missing
field reads as `""`; the Go code would panic on a row of fewer than 16
fields, so theorems about full files assume 16 fields per row. -/
def transformCSVRowToMatch (row : List String) : Match × List String :=
  ({ ID := row.getD 0 ""
     Timestamp := (parseTimestamp (row.getD 1 "") (row.getD 2 "")).1
     Stage := (convertToMatchStage (row.getD 3 "")).1
     Home :=
       { Team := if row.getD 6 "" ≠ "" then some ⟨row.getD 6 "", "", ""⟩ else none
         Goals := (parseUInt8 (row.getD 8 "")).1
         YellowCards := (parseUInt8 (row.getD 10 "")).1
         OwnGoals := (parseMatchEvents (row.getD 12 "")).1
         RedCards := (parseMatchEvents (row.getD 14 "")).1 }
     Away :=
       { Team := if row.getD 7 "" ≠ "" then some ⟨row.getD 7 "", "", ""⟩ else none
         Goals := (parseUInt8 (row.getD 9 "")).1
         YellowCards := (parseUInt8 (row.getD 11 "")).1
         OwnGoals := (parseMatchEvents (row.getD 13 "")).1
         RedCards := (parseMatchEvents (row.getD 15 "")).1 }
     Winner := if row.getD 5 "" ≠ "" then some ⟨row.getD 5 "", "", ""⟩ else none
     Completed := row.getD 4 "" = "Y" },
   (parseTimestamp (row.getD 1 "") (row.getD 2 "")).2 ++
    (convertToMatchStage (row.getD 3 "")).2 ++
    (parseUInt8 (row.getD 8 "")).2.map (fun e => "home goals: " ++ e) ++
    (parseUInt8 (row.getD 10 "")).2.map (fun e => "home yellow cards: " ++ e) ++
    (parseMatchEvents (row.getD 12 "")).2.map (fun e => "home own goals: " ++ e) ++
    (parseMatchEvents (row.getD 14 "")).2.map (fun e => "home red cards: " ++ e) ++
    (parseUInt8 (row.getD 9 "")).2.map (fun e => "away goals: " ++ e) ++
    (parseUInt8 (row.getD 11 "")).2.map (fun e => "away yellow cards: " ++ e) ++
    (parseMatchEvents (row.getD 13 "")).2.map (fun e => "away own goals: " ++ e) ++
    (parseMatchEvents (row.getD 15 "")).2.map (fun e => "away red cards: " ++ e))

/-- Joining with a string separator: Go `strings.Join`. -/
def joinStrings (sep : String) : List String → String
  | [] => ""
  | [x] => x
  | x :: xs => x ++ sep ++ joinStrings sep xs

/-- Result of src/domain/match.go `transformCSVToMatches`: either the
match collection, a fatal structural error (a plain wrapped error), or
the aggregated `MultiError` as its message list. -/
inductive TransformResult where
  | ok (ms : List Match)
  | fatal (msg : String)
  | multi (errs : List String)
deriving DecidableEq

/-- One data row's errors under its `row N: ` prefix view (`N` is the
0-based row index plus one). -/
def rowErrsPrefixed (p : Nat × List String) : List String :=
  (transformCSVRowToMatch p.2).2.map (fun m => "row " ++ toString (p.1 + 1) ++ ": " ++ m)

/-- src/domain/match.go `transformCSVToMatches`: requires a header row
plus at least one data row and the exact 16-column header (fatal errors
otherwise); then parses every data row, collecting each row's errors
under its `row N: ` view, and returns the matches only if no row
errored. -/
def transformCSVToMatches (records : List (List String)) : TransformResult :=
  if records.length < 2 then
    TransformResult.fatal ("rows " ++ toString records.length ++
      ": file must have header row and at least one more row")
  else if records.headD [] ≠ matchesCSVHeader then
    TransformResult.fatal ("invalid headers: " ++ joinStrings "," (records.headD []))
  else if ((records.drop 1).enum.map rowErrsPrefixed).flatten ≠ [] then
    TransformResult.multi (((records.drop 1).enum.map rowErrsPrefixed).flatten)
  else
    TransformResult.ok ((records.drop 1).map (fun row => (transformCSVRowToMatch row).1))

example : parseMatchEvents "2;Jones:7;Smith:45+2" =
    ([⟨"Jones", 7, 0⟩, ⟨"Smith", 45, 2⟩], []) := by decide

example : parseMatchEvents "2;Jones:7" = ([], ["must have 2 elements"]) := by decide

example : parseMatchEvents "2;Jones:7;Bad" =
    ([⟨"Jones", 7, 0⟩], ["event 2: invalid format"]) := by decide

example : parseUInt8 "300" = (44, []) := by decide

example : parseUInt8 "-1" = (255, []) := by decide

example : goParseTimestamp "01/06/2024 15:00" = some ⟨2024, 6, 1, 15, 0⟩ := by decide

example : goParseTimestamp "31/02/2024 15:00" = none := by decide

example : goParseTimestamp "29/02/2024 15:00" = some ⟨2024, 2, 29, 15, 0⟩ := by decide

example : goParseTimestamp "29/02/2023 15:00" = none := by decide

example :
    transformCSVToMatches [matchesCSVHeader,
      ["1", "01/06/2024", "15:00", "GROUP", "Y", "", "T1", "T2",
       "1", "2", "0", "1", "", "", "", ""]] =
    TransformResult.ok
      [{ ID := "1", Timestamp := some ⟨2024, 6, 1, 15, 0⟩, Stage := 1,
         Home := ⟨some ⟨"T1", "", ""⟩, 1, 0, [], []⟩,
         Away := ⟨some ⟨"T2", "", ""⟩, 2, 1, [], []⟩,
         Winner := none, Completed := true }] := by decide

example :
    transformCSVToMatches [matchesCSVHeader] =
    TransformResult.fatal "rows 1: file must have header row and at least one more row" := by
  decide

/-! ### Error aggregator with prefix views (src/unnamed/part_009) -/

/-- Modelled from the spec: a chain of `MultiError` prefix views over
one base aggregator. `base` is the `multiErr` of `NewMultiError` and
`withPfx parent p` is the `multiErrWithPrefix` decorator that
`WithPrefix(p)` returns. src/unnamed/part_009 defines `WithPrefix` only
on the base `multiErr` while the callers in src/domain chain
`WithPrefix` on views, so the view's own `WithPrefix` method is absent
from the files under src; the spec fixes it ("composable - nested
prefixes concatenate left-to-right - while all views share the same
underlying list", borne out by the tests' `row 1: home goals: ...`
messages): a view's `WithPrefix` wraps the view itself, which is
exactly the `withPfx` constructor. -/
inductive MultiErrView where
  | base : MultiErrView
  | withPfx : MultiErrView → String → MultiErrView
deriving DecidableEq

/-- `multiErr.Add` / `multiErrWithPrefix.Add` of src/unnamed/part_009:
adding a (non-nil) error through a view wraps its message in each
prefix of the chain, innermost first (each decorator prepends its own
non-empty prefix and delegates to its parent), and the base appends the
result to the single underlying error list, passed here as explicit
state. -/
def addThroughView : MultiErrView → String → List String → List String
  | MultiErrView.base, e, errs => errs ++ [e]
  | MultiErrView.withPfx parent p, e, errs =>
    addThroughView parent (if p ≠ "" then p ++ ": " ++ e else e) errs

/-- The full prefix text a view chain prepends to a message: the
non-empty prefixes from the outermost view inwards, each followed by
`": "`. -/
def viewPfx : MultiErrView → String
  | MultiErrView.base => ""
  | MultiErrView.withPfx parent p =>
    viewPfx parent ++ (if p ≠ "" then p ++ ": " else "")

/-- `multiErr.IsEmpty` of src/unnamed/part_009 on the underlying
shared error list. -/
def multiErrIsEmpty (errs : List String) : Bool :=
  errs.isEmpty

/-! ### Team audit (src/domain/team.go) -/

/-- Lookup in the per-team-id counter map (`sync.Map.Load`), the map
modelled as an association list. -/
def lookupMp (mp : List (String × Int)) (k : String) : Option Int :=
  (mp.find? (fun e => e.1 = k)).map Prod.snd

/-- Key presence in the counter map (the `any` check of `storeMp` and
`seedStep`). -/
def hasKey (mp : List (String × Int)) (k : String) : Bool :=
  mp.any (fun e => e.1 = k)

/-- `sync.Map.Store`: replace the binding for the key, or append a
fresh one. -/
def storeMp (mp : List (String × Int)) (k : String) (v : Int) : List (String × Int) :=
  if hasKey mp k then mp.map (fun e => if e.1 = k then (k, v) else e)
  else mp ++ [(k, v)]

/-- src/domain/team.go `teamsAudit`: the baseline team list and the
per-team-id counter map. -/
structure teamsAudit where
  teams : List Team
  mp : List (String × Int)
deriving DecidableEq

/-- One step of `teamsAudit.init`: store a zero counter for the team's
id unless the map already knows it. -/
def seedStep (acc : List (String × Int)) (tm : Team) : List (String × Int) :=
  if hasKey acc tm.ID then acc else acc ++ [(tm.ID, 0)]

/-- src/domain/team.go `teamsAudit.init`: seed a zero counter for every
baseline team id not yet in the map (nil baseline entries cannot occur
in this model; see the file comment). -/
def auditInit (a : teamsAudit) : teamsAudit :=
  ⟨a.teams, a.teams.foldl seedStep a.mp⟩

/-- src/domain/team.go `teamsAudit.set`: a no-op for a nil team,
otherwise init then store. -/
def auditSet (a : teamsAudit) (team : Option Team) (v : Int) : teamsAudit :=
  match team with
  | none => a
  | some tm =>
    let b := auditInit a
    ⟨b.teams, storeMp b.mp tm.ID v⟩

/-- src/domain/team.go `teamsAudit.ack`: a no-op for a nil team or an
id the (seeded) map does not know; otherwise bump the counter by one. -/
def auditAck (a : teamsAudit) (team : Option Team) : teamsAudit :=
  match team with
  | none => a
  | some tm =>
    let b := auditInit a
    match lookupMp b.mp tm.ID with
    | none => b
    | some v => auditSet b (some tm) (v + 1)

/-- Modelled from the spec: `teamsAudit.inc` is called by
src/domain/prizes.go (`MostGoalsConceded`, `MostYellowCards`) but its
definition is absent from the files under src. Per the spec the prize
counters are "accumulated via a per-team counter seeded at 0 for every
tournament team", so `inc` adds the amount to a known team's counter
and, like `ack`, ignores a nil or unknown team. -/
def auditInc (a : teamsAudit) (team : Option Team) (amount : Int) : teamsAudit :=
  match team with
  | none => a
  | some tm =>
    let b := auditInit a
    match lookupMp b.mp tm.ID with
    | none => b
    | some v => auditSet b (some tm) (v + amount)

/-- Modelled from the spec: `teamsAudit.get` is called by
src/domain/prizes.go `getPrizeRankingsFromAudit` with its success flag
discarded (`val, _ := audit.get(t)`), but its definition is absent from
the files under src; a missing counter therefore reads as 0. -/
def auditGet (a : teamsAudit) (tm : Team) : Int :=
  (lookupMp (auditInit a).mp tm.ID).getD 0

/-- src/domain/team.go `teamsAudit.validate` on a raw list of counter
entries: an error for every entry failing the mode's check (count not 1
in exactly-once mode, count 0 in at-least-once mode), the messages
sorted lexicographically before they are added to the aggregator. -/
def auditValidateEntries (entries : List (String × Int)) (exactlyOnce : Bool) : List String :=
  List.insertionSort (fun a b => a ≤ b)
    ((entries.filter (fun e => if exactlyOnce then e.2 ≠ 1 else e.2 = 0)).map
      (fun e => "team id '" ++ e.1 ++ "': count " ++ toString e.2))

/-- src/domain/team.go `teamsAudit.validate`: init, then report the
failing counters in sorted message order. -/
def auditValidate (a : teamsAudit) (exactlyOnce : Bool) : List String :=
  auditValidateEntries (auditInit a).mp exactlyOnce

/-! ### Collection lookups -/

/-- src/domain/team.go `TeamCollection.GetByID`: first team with the
id. -/
def GetTeamByID (collection : List Team) (id : String) : Option Team :=
  collection.find? (fun tm => tm.ID = id)

/-- src/domain/match.go `MatchCollection.GetByID`: first match with the
id. -/
def GetMatchByID (ms : List Match) (id : String) : Option Match :=
  ms.find? (fun m => m.ID = id)

/-- src/domain/match.go `MatchCollection.GetWinnerByMatchID`: nil
unless the match exists and is completed, then its (possibly nil)
winner. -/
def GetWinnerByMatchID (ms : List Match) (id : String) : Option Team :=
  match GetMatchByID ms id with
  | none => none
  | some m => if m.Completed then m.Winner else none

/-- src/domain/sweepstake.go `ParticipantCollection.GetByTeamID`: first
participant registered for the team id. -/
def GetParticipantByTeamID (pc : List Participant) (id : String) : Option Participant :=
  pc.find? (fun p => p.TeamID = id)

/-! ### Tournament enrichment and validation (src/domain/tournament.go) -/

/-- src/domain/tournament.go `populateTeamByID`: nothing to do for a
nil reference or an empty id; otherwise resolve the id against the
authoritative collection and either replace the reference's fields with
the full record (the in-place `*team = *t`, modelled as the returned
value) or report `team id '<id>': not found` (the `ErrNotFound` message
fixed by the spec and the tests) and leave the reference unchanged. -/
def populateTeamByID (team : Option Team) (collection : List Team) :
    Option Team × Option String :=
  match team with
  | none => (none, none)
  | some tm =>
    if tm.ID = "" then (some tm, none)
    else
      match GetTeamByID collection tm.ID with
      | none => (some tm, some ("team id '" ++ tm.ID ++ "': not found"))
      | some t => (some t, none)

/-- The enrichment errors of one match, in home/away/winner order with
their slot prefixes, as the loop body of `validateTournament` adds
them. -/
def matchEnrichErrs (teams : List Team) (m : Match) : List String :=
  (match (populateTeamByID m.Home.Team teams).2 with
   | some e => ["home: " ++ e]
   | none => []) ++
  (match (populateTeamByID m.Away.Team teams).2 with
   | some e => ["away: " ++ e]
   | none => []) ++
  (match (populateTeamByID m.Winner teams).2 with
   | some e => ["winner: " ++ e]
   | none => [])

/-- The audit state after the `validateTournament` loop acked every
match's (enriched) home and away team, starting from the audit seeded
with the tournament's team list. -/
def tournamentAudit (t : Tournament) : teamsAudit :=
  t.Matches.foldl (fun a m =>
    auditAck (auditAck a (populateTeamByID m.Home.Team t.Teams).1)
      (populateTeamByID m.Away.Team t.Teams).1)
    ⟨t.Teams, []⟩

/-- src/domain/tournament.go `validateTournament` (the current variant,
lines 166-206): the aggregated message list - trimmed required-field
checks, per-match enrichment errors under `match N: ` prefixes, then
the team audit validated in at-least-once mode. -/
def validateTournament (t : Tournament) : List String :=
  (if goTrimSpaces t.ID = "" then ["id: is empty"] else []) ++
  (if goTrimSpaces t.Name = "" then ["name: is empty"] else []) ++
  (if goTrimSpaces t.ImageURL = "" then ["image url: is empty"] else []) ++
  ((t.Matches.enum.map (fun p =>
      (matchEnrichErrs t.Teams p.2).map
        (fun e => "match " ++ toString (p.1 + 1) ++ ": " ++ e))).flatten) ++
  auditValidate (tournamentAudit t) false

/-! ### Prize computation engine (src/domain/prizes.go, final variant) -/

/-- An outright prize (src/domain/prizes.go `OutrightPrize`). -/
structure OutrightPrize where
  PrizeName : String
  ParticipantName : String
  ImageURL : String
deriving DecidableEq

/-- One leaderboard entry (src/domain/prizes.go `Rank`); `Position` is
a Go `uint8`, kept as `Nat` reduced modulo 256 where it is assigned. -/
structure Rank where
  Position : Nat
  ImageURL : String
  ParticipantName : String
  Value : String
deriving DecidableEq

/-- A ranked prize (src/domain/prizes.go `RankedPrize`). -/
structure RankedPrize where
  PrizeName : String
  Rankings : List Rank
deriving DecidableEq

/-- src/domain/prizes.go `getSummaryFromTeamAndParticipant`:
`"<participant name> (<team name>)"` when the participant exists with a
non-empty name, else just the team name. -/
def getSummaryFromTeamAndParticipant (team : Team) (participant : Option Participant) :
    String :=
  match participant with
  | none => team.Name
  | some p => if p.Name = "" then team.Name else p.Name ++ " (" ++ team.Name ++ ")"

/-- src/domain/prizes.go `TournamentWinner` (final variant, lines
182-207): the default "TBC" prize unless the final ("F") has a
completed winner, then that team's participant summary and image. -/
def TournamentWinner (s : Option Sweepstake) : OutrightPrize :=
  let defaultPrize : OutrightPrize := ⟨"Tournament Winner", "TBC", ""⟩
  match s with
  | none => defaultPrize
  | some sw =>
    match GetWinnerByMatchID sw.Tournament.Matches "F" with
    | none => defaultPrize
    | some winningTeam =>
      ⟨"Tournament Winner",
        getSummaryFromTeamAndParticipant winningTeam
          (GetParticipantByTeamID sw.Participants winningTeam.ID),
        winningTeam.ImageURL⟩

/-- The `results` list of src/domain/prizes.go
`getPrizeRankingsFromAudit`: every baseline team paired with its
counter, in team-list order. -/
def auditResults (audit : teamsAudit) : List (Team × Int) :=
  audit.teams.map (fun tm => (tm, auditGet audit tm))

/-- src/domain/prizes.go `getPrizeRankingsFromAudit`: stable-sort the
results by value descending (`sort.SliceStable` with `value >` is the
unique stable sort for the relation `b.value ≤ a.value`, realised here
as insertion sort), then emit a rank for every non-zero entry with
position `index + 1` taken in the sorted list (a Go `uint8`, hence
modulo 256). -/
def getPrizeRankingsFromAudit (audit : teamsAudit) (participants : List Participant) :
    List Rank :=
  (List.insertionSort (fun a b => b.2 ≤ a.2) (auditResults audit)).enum.filterMap
    (fun p =>
      if p.2.2 = 0 then none
      else some
        ⟨(p.1 + 1) % 256, p.2.1.ImageURL,
          getSummaryFromTeamAndParticipant p.2.1
            (GetParticipantByTeamID participants p.2.1.ID),
          "⚽️ " ++ toString p.2.2⟩)

/-- The `totals` audit of src/domain/prizes.go `MostGoalsConceded`:
over completed matches only, each side is credited with the opposing
side's goals, starting from the audit seeded with the tournament's
teams. -/
def concededAudit (sw : Sweepstake) : teamsAudit :=
  (sw.Tournament.Matches.filter (fun m => m.Completed)).foldl
    (fun a m =>
      auditInc (auditInc a m.Home.Team (m.Away.Goals : Int))
        m.Away.Team (m.Home.Goals : Int))
    ⟨sw.Tournament.Teams, []⟩

/-- src/domain/prizes.go `MostGoalsConceded`. -/
def MostGoalsConceded (s : Option Sweepstake) : RankedPrize :=
  match s with
  | none => ⟨"Most Goals Conceded", []⟩
  | some sw =>
    ⟨"Most Goals Conceded", getPrizeRankingsFromAudit (concededAudit sw) sw.Participants⟩

/-- The stable-sorted conceded-goals results of a sweepstake. -/
def concededSorted (sw : Sweepstake) : List (Team × Int) :=
  List.insertionSort (fun a b => b.2 ≤ a.2) (auditResults (concededAudit sw))

/-- An own-goal event with its match context (src/domain/prizes.go
`matchEventWithTeams`; the embedded `MatchEvent` is the `Ev` field). -/
structure matchEventWithTeams where
  Ev : MatchEvent
  Timestamp : Option DateTime
  For : Option Team
  Against : Option Team
deriving DecidableEq

/-- src/domain/prizes.go `matchEventsExtractor.ownGoals`: the home
side's own goals (scored for the home team, against the away team) then
the away side's. -/
def ownGoalsOfMatch (m : Match) : List matchEventWithTeams :=
  m.Home.OwnGoals.map (fun og => ⟨og, m.Timestamp, m.Home.Team, m.Away.Team⟩) ++
  m.Away.OwnGoals.map (fun og => ⟨og, m.Timestamp, m.Away.Team, m.Home.Team⟩)

/-- The own-goal events of all completed matches, in match order, as
the `QuickestOwnGoal` loop collects them. -/
def extractedOwnGoals (s : Sweepstake) : List matchEventWithTeams :=
  ((s.Tournament.Matches.filter (fun m => m.Completed)).map ownGoalsOfMatch).flatten

/-- The sort relation of `QuickestOwnGoal`: `sort.SliceStable` with
minute ascending then offset ascending corresponds to the stable sort
for this non-strict relation. -/
def evLe (a b : matchEventWithTeams) : Prop :=
  a.Ev.Minute < b.Ev.Minute ∨ (a.Ev.Minute = b.Ev.Minute ∧ a.Ev.Offset ≤ b.Ev.Offset)

instance : DecidableRel evLe := fun a b =>
  inferInstanceAs (Decidable (a.Ev.Minute < b.Ev.Minute ∨
    (a.Ev.Minute = b.Ev.Minute ∧ a.Ev.Offset ≤ b.Ev.Offset)))

/-- The extracted own-goal events, stably sorted by (minute, offset)
ascending. -/
def sortedOwnGoalEvents (s : Sweepstake) : List matchEventWithTeams :=
  List.insertionSort evLe (extractedOwnGoals s)

/-- A number zero-padded to two digits, as Go's `02`/`01` layout
fields print. -/
def pad2 (n : Nat) : String :=
  if n < 10 then "0" ++ toString n else toString n

/-- Go `time.Time.Format("02/01")`; the zero time prints as
`01/01`. -/
def formatDDMM : Option DateTime → String
  | none => "01/01"
  | some ts => pad2 ts.day ++ "/" ++ pad2 ts.month

/-- Modelled from the spec: `MatchEvent.String` (the `ev.String()` of
src/domain/prizes.go `QuickestOwnGoal`) is absent from the files under
src; the spec's value text `<minute>['+<offset>] <playerName>` and the
test expectations (`45' Joey`, `45'+4 DeeDee`) fix it. -/
def matchEventString (ev : MatchEvent) : String :=
  toString ev.Minute ++ "'" ++
    (if ev.Offset > 0 then "+" ++ toString ev.Offset else "") ++
    " " ++ ev.Name

/-- The `Rank` built for one own-goal event (no position is assigned,
so the Go zero value 0 remains). The `.getD ""` arms are unreachable
when the event's teams are present, which the Go code requires on pain
of a nil dereference. -/
def rankOfOwnGoalEvent (participants : List Participant) (ev : matchEventWithTeams) : Rank :=
  ⟨0,
    (ev.For.map Team.ImageURL).getD "",
    (ev.For.map (fun tm => getSummaryFromTeamAndParticipant tm
        (GetParticipantByTeamID participants tm.ID))).getD "",
    "🙈 " ++ matchEventString ev.Ev ++ " (vs " ++
      (ev.Against.map Team.Name).getD "" ++ " " ++ formatDDMM ev.Timestamp ++ ")"⟩

/-- src/domain/prizes.go `QuickestOwnGoal`: every own-goal event of
both competitors of completed matches, stably sorted by (minute,
offset) ascending, rendered without positions. -/
def QuickestOwnGoal (s : Option Sweepstake) : RankedPrize :=
  match s with
  | none => ⟨"Quickest Own Goal", []⟩
  | some sw =>
    ⟨"Quickest Own Goal",
      (sortedOwnGoalEvents sw).map (rankOfOwnGoalEvent sw.Participants)⟩

/-! ### Claim C10: parseUInt8 on numeric strings -/

/-- C10 counterexample: `"18446744073709551616"` (2^64) is a well-formed
base-10 integer literal, yet `parseUInt8` adds an error (Go
`strconv.Atoi` fails with a range error for values beyond the signed
64-bit range) and returns 0 instead of the value reduced modulo 256;
the claim predicted no error for every valid numeric string. -/
theorem parseUInt8_range_cex :
    isIntLiteral "18446744073709551616" = true ∧
    (parseUInt8 "18446744073709551616").2 ≠ [] ∧
    (parseUInt8 "18446744073709551616").1 = 0 := by
  decide

/-- C10 (amended): for every non-empty numeric string whose value fits
the signed 64-bit integer range, `parseUInt8` adds no error and returns
the value reduced modulo 256 (`"300"` yields 44, `"-1"` yields 255);
the empty string yields 0 with no error. -/
theorem parseUInt8_mod256 (s : String) (h1 : isIntLiteral s = true)
    (h2 : -(2 ^ 63) ≤ intLiteralVal s) (h3 : intLiteralVal s < 2 ^ 63) :
    parseUInt8 s = (Int.toNat (intLiteralVal s % 256), []) ∧
    parseUInt8 "" = (0, []) := by
  refine ⟨?_, rfl⟩
  have hs : ¬ s = "" := by
    intro h
    rw [h] at h1
    exact absurd h1 (by decide)
  have hrange : ¬ (intLiteralVal s < -(2 ^ 63) ∨ 2 ^ 63 ≤ intLiteralVal s) := by
    push_neg
    exact ⟨h2, h3⟩
  simp only [parseUInt8, goAtoi, h1, if_true, if_neg hs, if_neg hrange]

/-- C10 witness: the amended theorem applied at `"300"` and `"-1"`. -/
theorem parseUInt8_mod256_witness :
    parseUInt8 "300" = (44, []) ∧ parseUInt8 "-1" = (255, []) := by
  have ha := parseUInt8_mod256 "300" (by decide) (by decide) (by decide)
  have hb := parseUInt8_mod256 "-1" (by decide) (by decide) (by decide)
  exact ⟨ha.1.trans (by decide), hb.1.trans (by decide)⟩

/-! ### Claim C7: error-aggregator prefix views -/

/-- String append is associative (via the underlying character
lists). -/
theorem strAppend_assoc (a b c : String) : a ++ b ++ c = a ++ (b ++ c) := by
  apply String.ext
  simp [List.append_assoc]

/-- The empty string is a left identity for append. -/
theorem strAppend_empty_left (a : String) : "" ++ a = a := by
  apply String.ext
  simp

/-- Adding through a view appends one message to the shared list: the
message wrapped in the chain's prefix text. -/
theorem addThroughView_eq (v : MultiErrView) :
    ∀ (e : String) (errs : List String),
      addThroughView v e errs = errs ++ [viewPfx v ++ e] := by
  induction v with
  | base =>
    intro e errs
    rw [addThroughView, viewPfx, strAppend_empty_left]
  | withPfx parent p ih =>
    intro e errs
    by_cases hp : p = ""
    · simp only [addThroughView, viewPfx, hp, ih]
      simp [strAppend_empty_left]
    · simp only [addThroughView, viewPfx, ih]
      rw [if_pos hp, if_pos hp, strAppend_assoc (viewPfx parent) (p ++ ": ") e,
        strAppend_assoc p ": " e]

/-- C7 counterexample: `WithPrefix("")` does not prepend `": "` - a
decorator with an empty prefix adds the message unchanged (the `Add`
guard `m.prefix != ""`), while the claim's reading predicts `"<text>: "`
for every text. -/
theorem withPfx_empty_cex :
    addThroughView (MultiErrView.withPfx MultiErrView.base "") "boom" [] = ["boom"] ∧
    addThroughView (MultiErrView.withPfx MultiErrView.base "") "boom" [] ≠ [": boom"] := by
  decide

/-- C7 (amended): adding an error through a `WithPrefix(text)` view
appends exactly one entry to the shared underlying list - the message
prefixed by every non-empty prefix on the view chain, outermost first,
each followed by `": "` (an empty prefix text contributes nothing) -
and `IsEmpty` on the original aggregator is false afterwards, whichever
view was used. -/
theorem multiErr_view_spec (v : MultiErrView) (p e : String) (errs : List String) :
    addThroughView v e errs = errs ++ [viewPfx v ++ e] ∧
    viewPfx (MultiErrView.withPfx v p) =
      viewPfx v ++ (if p ≠ "" then p ++ ": " else "") ∧
    addThroughView (MultiErrView.withPfx v p) e errs =
      errs ++ [viewPfx v ++ ((if p ≠ "" then p ++ ": " else "") ++ e)] ∧
    multiErrIsEmpty (addThroughView v e errs) = false := by
  refine ⟨addThroughView_eq v e errs, rfl, ?_, ?_⟩
  · rw [addThroughView_eq, viewPfx, strAppend_assoc]
  · rw [addThroughView_eq v e errs, multiErrIsEmpty]
    simp

/-! ### Claim C9: enrichment is idempotent -/

/-- C9: for a Team reference whose id is resolvable in the
authoritative collection, enriching twice equals enriching once, and
enriching a reference that is already the full authoritative record is
a no-op on its fields. -/
theorem populateTeamByID_idempotent (t : Team) (c : List Team)
    (h : ∃ u ∈ c, u.ID = t.ID) :
    populateTeamByID (populateTeamByID (some t) c).1 c = populateTeamByID (some t) c ∧
    (∀ u : Team, GetTeamByID c u.ID = some u →
      populateTeamByID (some u) c = (some u, none)) := by
  constructor
  · by_cases hid : t.ID = ""
    · simp [populateTeamByID, hid]
    · have hfind : ∃ u, GetTeamByID c t.ID = some u := by
        rw [← Option.isSome_iff_exists]
        rw [GetTeamByID, List.find?_isSome]
        obtain ⟨u, hu, hid2⟩ := h
        exact ⟨u, hu, by simp [hid2]⟩
      obtain ⟨u, hu⟩ := hfind
      have huid : u.ID = t.ID := by
        have := List.find?_some hu
        simpa using this
      rw [populateTeamByID, if_neg hid, hu]
      simp only [populateTeamByID]
      rw [if_neg (huid ▸ hid), huid, hu]
  · intro u hu
    by_cases hid : u.ID = ""
    · simp [populateTeamByID, hid]
    · rw [populateTeamByID, if_neg hid, hu]

/-- C9 witness: the theorem applied to a concrete reference and
collection. -/
theorem populateTeamByID_idempotent_witness :
    populateTeamByID
        (populateTeamByID (some ⟨"X", "", ""⟩) [⟨"X", "Xavi", "img"⟩]).1
        [⟨"X", "Xavi", "img"⟩] =
      populateTeamByID (some ⟨"X", "", ""⟩) [⟨"X", "Xavi", "img"⟩] := by
  exact (populateTeamByID_idempotent ⟨"X", "", ""⟩ [⟨"X", "Xavi", "img"⟩]
    ⟨⟨"X", "Xavi", "img"⟩, by decide, rfl⟩).1

/-! ### Claim C2: the Tournament Winner prize -/

/-- The sweepstake of the C2 counterexample: the final is completed and
won by team `T1`; two participants are registered for team id `T1`, the
first with an empty name and the second named `"Bob"`. -/
def cexSweepC2 : Sweepstake :=
  ⟨"s", "s", "",
    ⟨"t", "t", "",
      [⟨"T1", "Team A", "img"⟩],
      [{ ID := "F", Timestamp := none, Stage := 2,
         Home := ⟨some ⟨"T1", "Team A", "img"⟩, 0, 0, [], []⟩,
         Away := ⟨some ⟨"T2", "Team B", "img2"⟩, 0, 0, [], []⟩,
         Winner := some ⟨"T1", "Team A", "img"⟩, Completed := true }]⟩,
    [⟨"T1", ""⟩, ⟨"T1", "Bob"⟩]⟩

/-- C2 counterexample: a Participant with the winning team's id and a
non-empty name exists (`"Bob"`), yet the prize's display name is just
the team name, because `GetByTeamID` returns the first participant for
that id, whose name is empty; the claim predicted
`"Bob (Team A)"`. -/
theorem tournamentWinner_first_participant_cex :
    (∃ p ∈ cexSweepC2.Participants, p.TeamID = "T1" ∧ p.Name ≠ "") ∧
    GetWinnerByMatchID cexSweepC2.Tournament.Matches "F" =
      some ⟨"T1", "Team A", "img"⟩ ∧
    TournamentWinner (some cexSweepC2) = ⟨"Tournament Winner", "Team A", "img"⟩ ∧
    (TournamentWinner (some cexSweepC2)).ParticipantName ≠ "Bob (Team A)" := by
  decide

/-- C2 (amended): `TournamentWinner` returns the default
`{"Tournament Winner", "TBC"}` prize when the sweepstake is nil, when
no match with id `"F"` exists, when the first such match is not
completed, or when it has no winner; otherwise it returns the winning
team's image url and a display name `"<participant name> (<team
name>)"` when the first Participant registered for that team id (the
one `GetByTeamID` returns) has a non-empty name, else just the team
name. -/
theorem tournamentWinner_spec :
    TournamentWinner none = ⟨"Tournament Winner", "TBC", ""⟩ ∧
    (∀ s : Sweepstake, GetMatchByID s.Tournament.Matches "F" = none →
      TournamentWinner (some s) = ⟨"Tournament Winner", "TBC", ""⟩) ∧
    (∀ (s : Sweepstake) (m : Match), GetMatchByID s.Tournament.Matches "F" = some m →
      m.Completed = false →
      TournamentWinner (some s) = ⟨"Tournament Winner", "TBC", ""⟩) ∧
    (∀ (s : Sweepstake) (m : Match), GetMatchByID s.Tournament.Matches "F" = some m →
      m.Winner = none →
      TournamentWinner (some s) = ⟨"Tournament Winner", "TBC", ""⟩) ∧
    (∀ (s : Sweepstake) (m : Match) (wt : Team),
      GetMatchByID s.Tournament.Matches "F" = some m → m.Completed = true →
      m.Winner = some wt →
      TournamentWinner (some s) =
        ⟨"Tournament Winner",
          (match GetParticipantByTeamID s.Participants wt.ID with
           | some p => if p.Name = "" then wt.Name else p.Name ++ " (" ++ wt.Name ++ ")"
           | none => wt.Name),
          wt.ImageURL⟩) := by
  refine ⟨rfl, ?_, ?_, ?_, ?_⟩
  · intro s h
    simp [TournamentWinner, GetWinnerByMatchID, h]
  · intro s m h hc
    simp [TournamentWinner, GetWinnerByMatchID, h, hc]
  · intro s m h hw
    rcases hc : m.Completed with _ | _ <;>
      simp [TournamentWinner, GetWinnerByMatchID, h, hc, hw]
  · intro s m wt h hc hw
    simp only [TournamentWinner, GetWinnerByMatchID, h, hc, hw, if_true]
    rcases hp : GetParticipantByTeamID s.Participants wt.ID with _ | p
    · simp [getSummaryFromTeamAndParticipant, hp]
    · simp only [getSummaryFromTeamAndParticipant, hp]

/-- C2 witness: the amended theorem's winning branch applied at the
concrete sweepstake above. -/
theorem tournamentWinner_spec_witness :
    TournamentWinner (some cexSweepC2) = ⟨"Tournament Winner", "Team A", "img"⟩ := by
  have h := tournamentWinner_spec.2.2.2.2 cexSweepC2
    { ID := "F", Timestamp := none, Stage := 2,
      Home := ⟨some ⟨"T1", "Team A", "img"⟩, 0, 0, [], []⟩,
      Away := ⟨some ⟨"T2", "Team B", "img2"⟩, 0, 0, [], []⟩,
      Winner := some ⟨"T1", "Team A", "img"⟩, Completed := true }
    ⟨"T1", "Team A", "img"⟩ (by decide) rfl rfl
  exact h.trans (by decide)

/-! ### Claim C5: team-audit validation modes and determinism -/

/-- C5: the validated errors are exactly the messages of the failing
counters - counter 0 in at-least-once mode (never a counter of 1 or
more), counter not 1 in exactly-once mode - sorted lexicographically,
and the output does not depend on the iteration order over the counter
map. -/
theorem teamsAudit_validate_spec (teams : List Team) (mp : List (String × Int))
    (entries : List (String × Int)) (exactlyOnce : Bool) :
    auditValidate ⟨teams, mp⟩ exactlyOnce =
      auditValidateEntries (auditInit ⟨teams, mp⟩).mp exactlyOnce ∧
    (auditValidateEntries entries exactlyOnce).Perm
      ((entries.filter (fun e => if exactlyOnce then e.2 ≠ 1 else e.2 = 0)).map
        (fun e => "team id '" ++ e.1 ++ "': count " ++ toString e.2)) ∧
    (auditValidateEntries entries exactlyOnce).Pairwise (fun a b : String => a ≤ b) ∧
    (∀ entries' : List (String × Int), entries.Perm entries' →
      auditValidateEntries entries' exactlyOnce =
        auditValidateEntries entries exactlyOnce) := by
  haveI htot : IsTotal String (fun a b : String => a ≤ b) := ⟨le_total⟩
  haveI htrans : IsTrans String (fun a b : String => a ≤ b) := ⟨fun a b c => le_trans⟩
  haveI hanti : IsAntisymm String (fun a b : String => a ≤ b) := ⟨fun a b => le_antisymm⟩
  refine ⟨rfl, List.perm_insertionSort _ _, List.sorted_insertionSort _ _, ?_⟩
  intro entries' hperm
  apply List.eq_of_perm_of_sorted _ (List.sorted_insertionSort _ _)
    (List.sorted_insertionSort _ _)
  exact (List.perm_insertionSort _ _).trans
    (((hperm.symm.filter _).map _).trans (List.perm_insertionSort _ _).symm)

/-- C5 witness: determinism applied to a two-entry counter map and its
transposition. -/
theorem teamsAudit_validate_spec_witness :
    auditValidateEntries [("B", 0), ("A", 0)] false =
      auditValidateEntries [("A", 0), ("B", 0)] false := by
  exact (teamsAudit_validate_spec [] [] [("A", 0), ("B", 0)] false).2.2.2
    [("B", 0), ("A", 0)] (by decide)

/-! ### Claim C8: event-grammar errors and the events kept -/

/-- C8 counterexample: the field `"2;Jones:7;Bad"` has an event-grammar
error (entry 2 has an invalid format), yet the parser yields the one
successfully parsed event rather than zero events for the field. -/
theorem parseMatchEvents_partial_cex :
    parseMatchEvents "2;Jones:7;Bad" =
      ([⟨"Jones", 7, 0⟩], ["event 2: invalid format"]) ∧
    (parseMatchEvents "2;Jones:7;Bad").2 ≠ [] ∧
    (parseMatchEvents "2;Jones:7;Bad").1 ≠ [] := by
  decide

/-- C8 (amended): a non-numeric count prefix or a count mismatch yields
zero events for the field; a per-entry format/minute/offset error
yields no event for that entry only, the field keeping exactly the
successfully parsed entries' events (zero events exactly when every
entry fails); and every other field of the row is still parsed from its
own column, unaffected. -/
theorem parseMatchEvents_spec (s : String) (row : List String) :
    (∀ e : String, goTrimSpaces s ≠ "" →
      goAtoi ((goSplit ';' (goTrimSpaces s)).headD "") = Except.error e →
      parseMatchEvents s =
        ([], ["first element must provide count of remaining elements"])) ∧
    (∀ n : Int, goTrimSpaces s ≠ "" →
      goAtoi ((goSplit ';' (goTrimSpaces s)).headD "") = Except.ok n →
      (((goSplit ';' (goTrimSpaces s)).drop 1).length : Int) ≠ n →
      parseMatchEvents s =
        ([], ["must have " ++ toString n ++ " element" ++ (if n ≠ 1 then "s" else "")])) ∧
    (∀ n : Int, goTrimSpaces s ≠ "" →
      goAtoi ((goSplit ';' (goTrimSpaces s)).headD "") = Except.ok n →
      (((goSplit ';' (goTrimSpaces s)).drop 1).length : Int) = n →
      (parseMatchEvents s).1 =
        ((goSplit ';' (goTrimSpaces s)).drop 1).filterMap
          (fun e2 => (parseMatchEvent e2).1) ∧
      ((parseMatchEvents s).1 = [] ↔
        ∀ e2 ∈ (goSplit ';' (goTrimSpaces s)).drop 1, (parseMatchEvent e2).1 = none)) ∧
    ((transformCSVRowToMatch row).1.Home.OwnGoals =
        (parseMatchEvents (row.getD 12 "")).1 ∧
      (transformCSVRowToMatch row).1.Away.OwnGoals =
        (parseMatchEvents (row.getD 13 "")).1 ∧
      (transformCSVRowToMatch row).1.Home.RedCards =
        (parseMatchEvents (row.getD 14 "")).1 ∧
      (transformCSVRowToMatch row).1.Away.RedCards =
        (parseMatchEvents (row.getD 15 "")).1 ∧
      (transformCSVRowToMatch row).1.Home.Goals = (parseUInt8 (row.getD 8 "")).1) := by
  refine ⟨?_, ?_, ?_, rfl, rfl, rfl, rfl, rfl⟩
  · intro e ht hAtoi
    simp only [parseMatchEvents, if_neg ht, hAtoi]
  · intro n ht hAtoi hlen
    simp only [parseMatchEvents, if_neg ht, hAtoi, if_pos hlen]
  · intro n ht hAtoi hlen
    have hlen2 : ¬ ((((goSplit ';' (goTrimSpaces s)).drop 1).length : Int) ≠ n) :=
      not_not_intro hlen
    have hev : (parseMatchEvents s).1 =
        ((goSplit ';' (goTrimSpaces s)).drop 1).filterMap
          (fun e2 => (parseMatchEvent e2).1) := by
      simp only [parseMatchEvents, if_neg ht, hAtoi]
      rw [if_neg hlen2]
      rw [List.filterMap_map]
      conv_rhs =>
        rw [← List.enum_map_snd ((goSplit ';' (goTrimSpaces s)).drop 1),
          List.filterMap_map]
      rfl
    refine ⟨hev, ?_⟩
    rw [hev, List.filterMap_eq_nil_iff]

/-- C8 witness: the amended theorem's count-mismatch branch at the
spec's own example. -/
theorem parseMatchEvents_spec_witness :
    parseMatchEvents "2;Jones:7" = ([], ["must have 2 elements"]) := by
  have h := (parseMatchEvents_spec "2;Jones:7" []).2.1 2 (by decide) rfl (by decide)
  exact h.trans (by decide)

/-! ### Stable-sort lemmas shared by the ranked-prize claims -/

/-- Inserting an element with a true filter bit prepends it to the
filtered list, when the relation never passes over an element that
could share its class (`hskip`). -/
theorem orderedInsert_filter_pos {α : Type} (r : α → α → Prop) [DecidableRel r]
    (p : α → Bool) (x : α) (hx : p x = true)
    (hskip : ∀ b, ¬ r x b → p b = false) :
    ∀ l : List α, (List.orderedInsert r x l).filter p = x :: l.filter p := by
  intro l
  induction l with
  | nil => simp [List.orderedInsert, hx]
  | cons y ys ih =>
    by_cases hr : r x y
    · simp [List.orderedInsert, if_pos hr, hx]
    · have hy : p y = false := hskip y hr
      simp only [List.orderedInsert, if_neg hr, List.filter_cons, hy]
      simpa [hy] using ih

/-- Inserting an element with a false filter bit leaves the filtered
list unchanged. -/
theorem orderedInsert_filter_neg {α : Type} (r : α → α → Prop) [DecidableRel r]
    (p : α → Bool) (x : α) (hx : p x = false) :
    ∀ l : List α, (List.orderedInsert r x l).filter p = l.filter p := by
  intro l
  induction l with
  | nil => simp [List.orderedInsert, hx]
  | cons y ys ih =>
    by_cases hr : r x y
    · simp [List.orderedInsert, if_pos hr, List.filter_cons, hx]
    · simp only [List.orderedInsert, if_neg hr, List.filter_cons, ih]

/-- Insertion sort is stable: for any class predicate such that the
relation strictly separates a true-class element from what it passes
over, the filtered subsequence keeps the input order. -/
theorem insertionSort_filter_stable {α : Type} (r : α → α → Prop) [DecidableRel r]
    (p : α → Bool) (hcl : ∀ a b, ¬ r a b → p a = true → p b = false) :
    ∀ l : List α, (List.insertionSort r l).filter p = l.filter p := by
  intro l
  induction l with
  | nil => rfl
  | cons x xs ih =>
    rw [List.insertionSort]
    by_cases hx : p x = true
    · rw [orderedInsert_filter_pos r p x hx (fun b hb => hcl x b hb hx), ih]
      simp [List.filter_cons, hx]
    · have hx2 : p x = false := by
        cases hpx : p x
        · rfl
        · exact absurd hpx hx
      rw [orderedInsert_filter_neg r p x hx2, ih]
      simp [List.filter_cons, hx2]

/-! ### Claim C4: the Quickest Own Goal prize ordering -/

/-- The sweepstake of the C4 witness: one completed match with three
own goals at minute 45, offsets 5, 4 and 0. -/
def cexSweepC4 : Sweepstake :=
  ⟨"s", "s", "",
    ⟨"t", "t", "",
      [⟨"A", "Team A", "urlA"⟩, ⟨"B", "Team B", "urlB"⟩],
      [{ ID := "2", Timestamp := some ⟨2024, 5, 28, 20, 0⟩, Stage := 1,
         Home := ⟨some ⟨"A", "Team A", "urlA"⟩, 0, 0,
           [⟨"Tommy", 45, 5⟩, ⟨"DeeDee", 45, 4⟩], []⟩,
         Away := ⟨some ⟨"B", "Team B", "urlB"⟩, 0, 0, [⟨"Joey", 45, 0⟩], []⟩,
         Winner := none, Completed := true }]⟩,
    []⟩

/-- C4: `QuickestOwnGoal` extracts every own-goal event of both
competitors of completed matches only (that is the content of
`extractedOwnGoals`); the rankings are those events sorted so that the
(minute, offset) keys are ascending - an offset of 0 ordering before
any positive offset at the same minute, and the offset-4 event before
the offset-5 event at minute 45 - stably (same-key events keep
extraction order), as a permutation of the extracted events; and no
rank carries a position (all positions are the Go zero value 0). The
hypothesis reflects that the Go code dereferences both competitors'
teams when rendering an event of a completed match. -/
theorem quickestOwnGoal_spec (s : Sweepstake)
    (h : ∀ m ∈ s.Tournament.Matches, m.Completed = true →
      m.Home.Team ≠ none ∧ m.Away.Team ≠ none) :
    QuickestOwnGoal none = ⟨"Quickest Own Goal", []⟩ ∧
    (QuickestOwnGoal (some s)).Rankings =
      (sortedOwnGoalEvents s).map (rankOfOwnGoalEvent s.Participants) ∧
    (sortedOwnGoalEvents s).Pairwise evLe ∧
    (sortedOwnGoalEvents s).Perm (extractedOwnGoals s) ∧
    (∀ k : Nat × Nat,
      (sortedOwnGoalEvents s).filter (fun e2 => (e2.Ev.Minute, e2.Ev.Offset) = k) =
      (extractedOwnGoals s).filter (fun e2 => (e2.Ev.Minute, e2.Ev.Offset) = k)) ∧
    (∀ r ∈ (QuickestOwnGoal (some s)).Rankings, r.Position = 0) ∧
    List.insertionSort evLe
      [⟨⟨"Tommy", 45, 5⟩, none, none, none⟩, ⟨⟨"DeeDee", 45, 4⟩, none, none, none⟩] =
      [⟨⟨"DeeDee", 45, 4⟩, none, none, none⟩,
        ⟨⟨"Tommy", 45, 5⟩, none, none, none⟩] := by
  haveI : IsTotal matchEventWithTeams evLe := by
    constructor
    intro a b
    unfold evLe
    omega
  haveI : IsTrans matchEventWithTeams evLe := by
    constructor
    intro a b c hab hbc
    unfold evLe at hab hbc ⊢
    omega
  refine ⟨rfl, rfl, List.sorted_insertionSort _ _, List.perm_insertionSort _ _,
    ?_, ?_, by decide⟩
  · intro k
    apply insertionSort_filter_stable
    intro a b hab hpa
    have hpa2 : (a.Ev.Minute, a.Ev.Offset) = k := of_decide_eq_true hpa
    have hne : (b.Ev.Minute, b.Ev.Offset) ≠ (a.Ev.Minute, a.Ev.Offset) := by
      unfold evLe at hab
      intro hcontra
      rw [Prod.mk.injEq] at hcontra
      omega
    rw [decide_eq_false_iff_not]
    rw [← hpa2]
    exact hne
  · intro r hr
    simp only [QuickestOwnGoal] at hr
    obtain ⟨ev, _, hrw⟩ := List.mem_map.1 hr
    rw [← hrw]
    rfl

/-- C4 witness: the theorem applied at a concrete sweepstake. -/
theorem quickestOwnGoal_spec_witness :
    (sortedOwnGoalEvents cexSweepC4).Perm (extractedOwnGoals cexSweepC4) :=
  (quickestOwnGoal_spec cexSweepC4 (by decide)).2.2.2.1

/-! ### Claim C3: the Most Goals Conceded prize ranking -/

/-- Seeding counters preserves non-negativity (seeds are 0). -/
theorem auditInit_nonneg (a : teamsAudit) (h : ∀ e ∈ a.mp, 0 ≤ e.2) :
    ∀ e ∈ (auditInit a).mp, 0 ≤ e.2 := by
  suffices H : ∀ (ts : List Team) (mp : List (String × Int)),
      (∀ e ∈ mp, 0 ≤ e.2) →
      ∀ e ∈ ts.foldl seedStep mp, 0 ≤ e.2 by
    exact H a.teams a.mp h
  intro ts
  induction ts with
  | nil => intro mp hmp; exact hmp
  | cons t ts ih =>
    intro mp hmp
    apply ih
    intro e he
    unfold seedStep at he
    by_cases hc : hasKey mp t.ID
    · rw [if_pos hc] at he
      exact hmp e he
    · rw [if_neg hc] at he
      rcases List.mem_append.1 he with he1 | he1
      · exact hmp e he1
      · rcases List.mem_singleton.1 he1 with rfl
        simp

/-- Storing a non-negative value preserves non-negativity. -/
theorem storeMp_nonneg (mp : List (String × Int)) (k : String) (v : Int)
    (hv : 0 ≤ v) (h : ∀ e ∈ mp, 0 ≤ e.2) :
    ∀ e ∈ storeMp mp k v, 0 ≤ e.2 := by
  intro e he
  unfold storeMp at he
  by_cases hc : hasKey mp k
  · rw [if_pos hc] at he
    obtain ⟨e1, he1, hrw⟩ := List.mem_map.1 he
    by_cases hk : e1.1 = k
    · rw [if_pos hk] at hrw
      rw [← hrw]
      exact hv
    · rw [if_neg hk] at hrw
      rw [← hrw]
      exact h e1 he1
  · rw [if_neg hc] at he
    rcases List.mem_append.1 he with he1 | he1
    · exact h e he1
    · rcases List.mem_singleton.1 he1 with rfl
      exact hv

/-- A value found in a non-negative counter map is non-negative. -/
theorem lookupMp_nonneg (mp : List (String × Int)) (k : String) (v : Int)
    (hl : lookupMp mp k = some v) (h : ∀ e ∈ mp, 0 ≤ e.2) : 0 ≤ v := by
  unfold lookupMp at hl
  rcases hf : mp.find? (fun e => e.1 = k) with _ | e0
  · rw [hf] at hl
    exact absurd hl (by simp)
  · rw [hf] at hl
    have hv2 : e0.2 = v := by simpa using hl
    subst hv2
    exact h e0 (List.mem_of_find?_eq_some hf)

/-- `inc` with a non-negative amount preserves non-negativity. -/
theorem auditInc_nonneg (a : teamsAudit) (team : Option Team) (amount : Int)
    (ha : 0 ≤ amount) (h : ∀ e ∈ a.mp, 0 ≤ e.2) :
    ∀ e ∈ (auditInc a team amount).mp, 0 ≤ e.2 := by
  cases team with
  | none => exact h
  | some tm =>
    have hb := auditInit_nonneg a h
    rcases hl : lookupMp (auditInit a).mp tm.ID with _ | v
    · intro e he
      simp only [auditInc, hl] at he
      exact hb e he
    · have hv : 0 ≤ v := lookupMp_nonneg _ _ _ hl hb
      intro e he
      simp only [auditInc, hl, auditSet] at he
      have hbb := auditInit_nonneg (auditInit a) hb
      exact storeMp_nonneg _ _ _ (by omega) hbb e he

/-- Every counter of the conceded-goals audit is non-negative. -/
theorem concededAudit_nonneg (sw : Sweepstake) :
    ∀ e ∈ (concededAudit sw).mp, 0 ≤ e.2 := by
  unfold concededAudit
  generalize (sw.Tournament.Matches.filter (fun m => m.Completed)) = ms
  suffices H : ∀ (ms : List Match) (a : teamsAudit), (∀ e ∈ a.mp, 0 ≤ e.2) →
      ∀ e ∈ (ms.foldl (fun a m =>
        auditInc (auditInc a m.Home.Team (m.Away.Goals : Int))
          m.Away.Team (m.Home.Goals : Int)) a).mp, 0 ≤ e.2 by
    exact H ms ⟨sw.Tournament.Teams, []⟩ (by simp)
  intro ms
  induction ms with
  | nil => intro a ha; exact ha
  | cons m ms ih =>
    intro a ha
    apply ih
    exact auditInc_nonneg _ _ _ (by positivity) (auditInc_nonneg _ _ _ (by positivity) ha)

/-- Every value in the conceded-goals results list is non-negative. -/
theorem auditResults_conceded_nonneg (sw : Sweepstake) :
    ∀ e ∈ auditResults (concededAudit sw), 0 ≤ e.2 := by
  intro e he
  obtain ⟨tm, _, hrw⟩ := List.mem_map.1 he
  have hg : 0 ≤ auditGet (concededAudit sw) tm := by
    unfold auditGet
    rcases hl : lookupMp (auditInit (concededAudit sw)).mp tm.ID with _ | v
    · simp [hl]
    · have hnn := auditInit_nonneg (concededAudit sw) (concededAudit_nonneg sw)
      have := lookupMp_nonneg _ _ _ hl hnn
      simp [hl, this]
  rw [← hrw]
  exact hg

/-- In a descending list of non-negative values, the zero-valued tail
does not shift the positions of the non-zero prefix: enumerating then
dropping zeros equals dropping zeros then enumerating. -/
theorem enumFrom_filterMap_nonzero {β : Type} (mk : Nat × (Team × Int) → β) :
    ∀ (l : List (Team × Int)) (n : Nat),
      l.Pairwise (fun a b => b.2 ≤ a.2) → (∀ e ∈ l, 0 ≤ e.2) →
      (List.enumFrom n l).filterMap
          (fun p => if p.2.2 = 0 then none else some (mk p)) =
        (List.enumFrom n (l.filter (fun e => e.2 ≠ 0))).map mk := by
  intro l
  induction l with
  | nil => intro n _ _; rfl
  | cons x xs ih =>
    intro n hpw hnn
    have hpw2 := (List.pairwise_cons.1 hpw).2
    have hhead := (List.pairwise_cons.1 hpw).1
    have hnn2 : ∀ e ∈ xs, 0 ≤ e.2 := fun e he => hnn e (List.mem_cons_of_mem x he)
    by_cases hx0 : x.2 = 0
    · have hall : ∀ e ∈ xs, e.2 = 0 := by
        intro e he
        have h1 := hhead e he
        have h2 := hnn2 e he
        omega
      have hleft : (List.enumFrom (n + 1) xs).filterMap
          (fun p => if p.2.2 = 0 then none else some (mk p)) = [] := by
        rw [List.filterMap_eq_nil_iff]
        intro p hp
        have hmem : p.2 ∈ xs := by
          rw [(List.mem_enumFrom hp).2.2]
          exact List.getElem_mem _
        rw [if_pos (hall p.2 hmem)]
      have hright : xs.filter (fun e => e.2 ≠ 0) = [] := by
        rw [List.filter_eq_nil_iff]
        intro e he
        simp [hall e he]
      rw [List.enumFrom_cons, List.filterMap_cons, if_pos hx0, hleft,
        List.filter_cons, if_neg (by simp [hx0]), hright]
      rfl
    · rw [List.enumFrom_cons, List.filterMap_cons, if_neg hx0,
        List.filter_cons, if_pos (by simp [hx0]), List.enumFrom_cons, List.map_cons,
        ih (n + 1) hpw2 hnn2]

/-- The team of the C3 counterexample. -/
def cexTeamA : Team := ⟨"A", "Team A", "img"⟩

/-- The one completed match of the C3 counterexample: the home team
concedes the away side's single goal. -/
def cexMatchC3 : Match :=
  { ID := "1", Timestamp := none, Stage := 1,
    Home := ⟨some cexTeamA, 0, 0, [], []⟩,
    Away := ⟨none, 1, 0, [], []⟩,
    Winner := none, Completed := true }

/-- The sweepstake of the C3 counterexample: the tournament team list
holds 256 entries of the same team, each pairing with the same non-zero
conceded total, so 256 ranks are emitted and the 256th position - a Go
`uint8` - wraps to 0. -/
def cexSweepC3 : Sweepstake :=
  ⟨"s", "s", "", ⟨"t", "t", "", List.replicate 256 cexTeamA, [cexMatchC3]⟩, []⟩

/-- Seeding from copies of one already-seeded team changes nothing. -/
theorem initFold_replicate (t : Team) :
    ∀ (n : Nat) (mp : List (String × Int)), hasKey mp t.ID = true →
      (List.replicate n t).foldl seedStep mp = mp := by
  intro n
  induction n with
  | zero => intro mp _; rfl
  | succ k ih =>
    intro mp hmp
    rw [List.replicate_succ, List.foldl_cons, seedStep, if_pos hmp]
    exact ih mp hmp

/-- Seeding an audit over a replicated team list with the team already
present is the identity. -/
theorem auditInit_replicate (t : Team) (n : Nat) (mp : List (String × Int))
    (h : hasKey mp t.ID = true) :
    auditInit ⟨List.replicate n t, mp⟩ = ⟨List.replicate n t, mp⟩ := by
  unfold auditInit
  rw [teamsAudit.mk.injEq]
  exact ⟨rfl, initFold_replicate t n mp h⟩

/-- Seeding an audit over a non-empty replicated team list from the
empty map yields the single zero counter. -/
theorem auditInit_replicate_nil (t : Team) (n : Nat) :
    auditInit ⟨List.replicate (n + 1) t, []⟩ =
      ⟨List.replicate (n + 1) t, [(t.ID, 0)]⟩ := by
  unfold auditInit
  rw [teamsAudit.mk.injEq]
  refine ⟨rfl, ?_⟩
  rw [List.replicate_succ, List.foldl_cons]
  have h0 : seedStep [] t = [(t.ID, 0)] := by
    simp [seedStep, hasKey]
  rw [h0]
  exact initFold_replicate t n [(t.ID, 0)] (by simp [hasKey])

/-- The conceded-goals audit of the C3 counterexample sweepstake: one
counter, at 1. -/
theorem concededAudit_cexC3 :
    concededAudit cexSweepC3 = ⟨List.replicate 256 cexTeamA, [("A", 1)]⟩ := by
  have hinit1 : auditInit ⟨List.replicate 256 cexTeamA, []⟩ =
      ⟨List.replicate 256 cexTeamA, [("A", 0)]⟩ :=
    (auditInit_replicate_nil cexTeamA 255 :
      auditInit ⟨List.replicate 256 cexTeamA, []⟩ =
        ⟨List.replicate 256 cexTeamA, [("A", 0)]⟩)
  have hstep : cexSweepC3.Tournament.Matches.filter (fun m => m.Completed) =
      [cexMatchC3] := rfl
  unfold concededAudit
  rw [hstep]
  simp only [List.foldl_cons, List.foldl_nil]
  have h1 : cexSweepC3.Tournament.Teams = List.replicate 256 cexTeamA := rfl
  have h2 : cexMatchC3.Home.Team = some cexTeamA := rfl
  have h3 : cexMatchC3.Away.Team = none := rfl
  have h4 : ((cexMatchC3.Away.Goals : Nat) : Int) = 1 := rfl
  rw [h1, h2, h3, h4]
  have hnone : ∀ (a : teamsAudit) (x : Int), auditInc a none x = a := fun a x => rfl
  rw [hnone]
  have hlook : lookupMp [("A", 0)] cexTeamA.ID = some 0 := rfl
  simp only [auditInc, hinit1, hlook]
  unfold auditSet
  rw [auditInit_replicate cexTeamA 256 [("A", 0)] rfl]
  rfl

/-- The conceded-goals results of the C3 counterexample: 256 copies of
the team paired with the total 1. -/
theorem auditResults_cexC3 :
    auditResults (concededAudit cexSweepC3) =
      List.replicate 256 (cexTeamA, (1 : Int)) := by
  unfold auditResults
  rw [concededAudit_cexC3]
  have hproj : (⟨List.replicate 256 cexTeamA, [("A", 1)]⟩ : teamsAudit).teams =
      List.replicate 256 cexTeamA := rfl
  rw [hproj, List.map_replicate]
  have hget : auditGet ⟨List.replicate 256 cexTeamA, [("A", 1)]⟩ cexTeamA = 1 := by
    unfold auditGet
    rw [auditInit_replicate cexTeamA 256 [("A", 1)] rfl]
    rfl
  rw [hget]

/-- Enumerating a replicated list pairs consecutive indices with the
repeated element. -/
theorem enumFrom_replicate {α : Type} (x : α) :
    ∀ (n k : Nat), List.enumFrom k (List.replicate n x) =
      (List.range' k n).map (fun i => (i, x)) := by
  intro n
  induction n with
  | zero => intro k; rfl
  | succ m ih =>
    intro k
    rw [List.replicate_succ, List.enumFrom_cons, List.range'_succ, List.map_cons, ih]

/-- The rank positions of the C3 counterexample: `(i + 1) % 256` for
`i = 0, ..., 255`. -/
theorem cexC3_positions :
    (MostGoalsConceded (some cexSweepC3)).Rankings.map Rank.Position =
      (List.range' 0 256).map (fun i => (i + 1) % 256) := by
  have hsorted : List.insertionSort
      (fun a b : Team × Int => b.2 ≤ a.2)
      (List.replicate 256 (cexTeamA, (1 : Int))) =
      List.replicate 256 (cexTeamA, (1 : Int)) := by
    apply List.Sorted.insertionSort_eq
    rw [List.Sorted, List.pairwise_replicate]
    exact Or.inr le_rfl
  simp only [MostGoalsConceded]
  unfold getPrizeRankingsFromAudit
  rw [auditResults_cexC3, hsorted]
  have henum : (List.replicate 256 (cexTeamA, (1 : Int))).enum =
      List.enumFrom 0 (List.replicate 256 (cexTeamA, (1 : Int))) := rfl
  rw [henum, enumFrom_replicate, List.filterMap_map]
  have hfun : ((fun p : Nat × (Team × Int) =>
      if p.2.2 = 0 then none
      else some (⟨(p.1 + 1) % 256, p.2.1.ImageURL,
        getSummaryFromTeamAndParticipant p.2.1
          (GetParticipantByTeamID cexSweepC3.Participants p.2.1.ID),
        "⚽️ " ++ toString p.2.2⟩ : Rank)) ∘
        (fun i => (i, (cexTeamA, (1 : Int))))) =
      some ∘ (fun i => (⟨(i + 1) % 256, "img", "Team A", "⚽️ 1"⟩ : Rank)) := by
    funext i
    rfl
  rw [hfun, List.filterMap_eq_map, List.map_map]
  rfl

/-- C3 counterexample: 256 ranks are emitted, one of the positions is 0
(the 256th, a Go `uint8` wrap of 256), so the positions are not the
1-based consecutive `[1, ..., 256]` the claim predicts. -/
theorem mostGoalsConceded_position_cex :
    (MostGoalsConceded (some cexSweepC3)).Rankings.length = 256 ∧
    (0 : Nat) ∈ (MostGoalsConceded (some cexSweepC3)).Rankings.map Rank.Position ∧
    (MostGoalsConceded (some cexSweepC3)).Rankings.map Rank.Position ≠
      (List.range 256).map (fun i => i + 1) := by
  have hpos := cexC3_positions
  refine ⟨?_, ?_, ?_⟩
  · have hlen := congrArg List.length hpos
    simpa using hlen
  · rw [hpos, List.mem_map]
    refine ⟨255, ?_, by norm_num⟩
    rw [List.mem_range']
    exact ⟨255, by norm_num, by norm_num⟩
  · rw [hpos]
    intro hcontra
    have h0 : (0 : Nat) ∈ (List.range 256).map (fun i => i + 1) := by
      rw [← hcontra, List.mem_map]
      refine ⟨255, ?_, by norm_num⟩
      rw [List.mem_range']
      exact ⟨255, by norm_num, by norm_num⟩
    rw [List.mem_map] at h0
    obtain ⟨i, _, hi⟩ := h0
    omega

/-- C3 (amended): a nil sweepstake yields the empty ranking list; for a
sweepstake, the rankings are built from the conceded-goals results
(opponents' goals accumulated over completed matches only, seeded at 0
for each tournament team, in team-list order) stable-sorted descending
- a permutation of the results, value-descending, and same-valued
entries keeping team-list order - with every zero-total team omitted
and positions `(index + 1) mod 256` assigned consecutively over the
emitted list in sorted order, ties not collapsed (1-based consecutive
whenever at most 255 teams have non-zero totals). -/
theorem mostGoalsConceded_spec (s : Sweepstake) :
    MostGoalsConceded none = ⟨"Most Goals Conceded", []⟩ ∧
    (MostGoalsConceded (some s)).Rankings =
      getPrizeRankingsFromAudit (concededAudit s) s.Participants ∧
    (concededSorted s).Perm (auditResults (concededAudit s)) ∧
    (concededSorted s).Pairwise (fun a b => b.2 ≤ a.2) ∧
    (∀ v : Int, (concededSorted s).filter (fun e => e.2 = v) =
      (auditResults (concededAudit s)).filter (fun e => e.2 = v)) ∧
    (MostGoalsConceded (some s)).Rankings =
      ((concededSorted s).filter (fun e => e.2 ≠ 0)).enum.map
        (fun p => ⟨(p.1 + 1) % 256, p.2.1.ImageURL,
          getSummaryFromTeamAndParticipant p.2.1
            (GetParticipantByTeamID s.Participants p.2.1.ID),
          "⚽️ " ++ toString p.2.2⟩) := by
  haveI : IsTotal (Team × Int) (fun a b => b.2 ≤ a.2) :=
    ⟨fun a b => (le_total b.2 a.2).symm.symm⟩
  haveI : IsTrans (Team × Int) (fun a b => b.2 ≤ a.2) :=
    ⟨fun a b c hab hbc => le_trans hbc hab⟩
  have hsorted : (concededSorted s).Pairwise (fun a b => b.2 ≤ a.2) :=
    List.sorted_insertionSort _ _
  refine ⟨rfl, rfl, List.perm_insertionSort _ _, hsorted, ?_, ?_⟩
  · intro v
    apply insertionSort_filter_stable
    intro a b hab hpa
    have hpa2 : a.2 = v := of_decide_eq_true hpa
    rw [decide_eq_false_iff_not]
    intro hb
    exact hab (le_of_eq (hb.trans hpa2.symm))
  · have hnn : ∀ e ∈ concededSorted s, 0 ≤ e.2 := by
      intro e he
      exact auditResults_conceded_nonneg s e ((List.mem_insertionSort _).1 he)
    exact enumFrom_filterMap_nonzero _ (concededSorted s) 0 hsorted hnn

/-! ### Claim C1: whole-file match CSV transformation -/

/-- C1 counterexample: a records input whose (only) row is exactly the
16-column header - so the header matches and there are zero data rows,
none of which errors - is rejected with a fatal error instead of
yielding zero matches with no error. -/
theorem transformCSVToMatches_headerOnly_cex :
    transformCSVToMatches [matchesCSVHeader] =
      TransformResult.fatal "rows 1: file must have header row and at least one more row" ∧
    transformCSVToMatches [matchesCSVHeader] ≠ TransformResult.ok [] := by
  decide

/-- C1 (amended): for every CSV records input (rows of 16 fields) whose
header row matches the fixed 16-column header and which has at least
one data row, every data row is parsed (no fail-fast): the result is
the aggregated `MultiError` - every row's errors under its `row N: `
prefix, concatenated in row order of discovery - exactly when at least
one row produced an error, and otherwise one `Match` per data row in
row order with no error. -/
theorem transformCSVToMatches_spec (records : List (List String))
    (hhead : records.headD [] = matchesCSVHeader)
    (hlen : 2 ≤ records.length)
    (hrect : ∀ row ∈ records, row.length = 16) :
    ((∃ row ∈ records.drop 1, (transformCSVRowToMatch row).2 ≠ []) →
      transformCSVToMatches records =
        TransformResult.multi (((records.drop 1).enum.map rowErrsPrefixed).flatten)) ∧
    ((∀ row ∈ records.drop 1, (transformCSVRowToMatch row).2 = []) →
      transformCSVToMatches records =
        TransformResult.ok
          ((records.drop 1).map (fun row => (transformCSVRowToMatch row).1))) := by
  have hnotlt : ¬ (records.length < 2) := by omega
  have hnothead : ¬ (records.headD [] ≠ matchesCSVHeader) := not_not_intro hhead
  have hiff : ((records.drop 1).enum.map rowErrsPrefixed).flatten = [] ↔
      ∀ row ∈ records.drop 1, (transformCSVRowToMatch row).2 = [] := by
    rw [List.flatten_eq_nil_iff]
    constructor
    · intro h row hrow
      obtain ⟨p, hp, hsnd⟩ : ∃ p ∈ (records.drop 1).enum, p.2 = row := by
        have hmm : row ∈ (records.drop 1).enum.map Prod.snd := by
          rw [List.enum_map_snd]
          exact hrow
        obtain ⟨p, hp, he⟩ := List.mem_map.1 hmm
        exact ⟨p, hp, he⟩
      have h2 := h (rowErrsPrefixed p) (List.mem_map_of_mem _ hp)
      rw [rowErrsPrefixed, List.map_eq_nil_iff] at h2
      rw [← hsnd]
      exact h2
    · intro h l hl
      obtain ⟨p, hp, rfl⟩ := List.mem_map.1 hl
      have hmem : p.2 ∈ records.drop 1 := by
        rw [← List.enum_map_snd (records.drop 1)]
        exact List.mem_map_of_mem _ hp
      rw [rowErrsPrefixed, h p.2 hmem]
      rfl
  constructor
  · intro hex
    have hne : ((records.drop 1).enum.map rowErrsPrefixed).flatten ≠ [] := by
      intro hc
      obtain ⟨row, hrow, hne2⟩ := hex
      exact hne2 (hiff.1 hc row hrow)
    unfold transformCSVToMatches
    rw [if_neg hnotlt, if_neg hnothead, if_pos hne]
  · intro hall
    have heq : ((records.drop 1).enum.map rowErrsPrefixed).flatten = [] := hiff.2 hall
    unfold transformCSVToMatches
    rw [if_neg hnotlt, if_neg hnothead, if_neg (not_not_intro heq)]

/-- The records input of the C1 witness: the header plus one valid data
row. -/
def cexRecordsC1 : List (List String) :=
  [matchesCSVHeader,
   ["1", "01/06/2024", "15:00", "GROUP", "Y", "", "T1", "T2",
    "1", "2", "0", "1", "", "", "", ""]]

/-- C1 witness: the amended theorem's success branch at a concrete
two-row file. -/
theorem transformCSVToMatches_spec_witness :
    transformCSVToMatches cexRecordsC1 =
      TransformResult.ok
        [{ ID := "1", Timestamp := some ⟨2024, 6, 1, 15, 0⟩, Stage := 1,
           Home := ⟨some ⟨"T1", "", ""⟩, 1, 0, [], []⟩,
           Away := ⟨some ⟨"T2", "", ""⟩, 2, 1, [], []⟩,
           Winner := none, Completed := true }] := by
  have h := (transformCSVToMatches_spec cexRecordsC1 (by decide) (by decide)
    (by decide)).2 (by decide)
  exact h.trans (by decide)

/-! ### Claim C6: tournament team coverage via the audit -/

/-- A key is present exactly when a lookup succeeds. -/
theorem hasKey_iff_lookup (mp : List (String × Int)) (k : String) :
    hasKey mp k = true ↔ ∃ v, lookupMp mp k = some v := by
  rw [hasKey, List.any_eq_true]
  constructor
  · intro ⟨e, he, hk⟩
    have hk2 : e.1 = k := by simpa using hk
    have hs : (mp.find? (fun e2 => e2.1 = k)).isSome := by
      rw [List.find?_isSome]
      exact ⟨e, he, by simpa using hk2⟩
    obtain ⟨e0, he0⟩ := Option.isSome_iff_exists.1 hs
    exact ⟨e0.2, by rw [lookupMp, he0]; rfl⟩
  · intro ⟨v, hv⟩
    rw [lookupMp] at hv
    rcases hf : mp.find? (fun e2 => e2.1 = k) with _ | e0
    · rw [hf] at hv
      exact absurd hv (by simp)
    · refine ⟨e0, List.mem_of_find?_eq_some hf, ?_⟩
      have := List.find?_some hf
      simpa using this

/-- Lookup of the stored key in the map-update branch of `storeMp`. -/
theorem lookupMp_mapStore_self (k : String) (v : Int) :
    ∀ mp : List (String × Int), hasKey mp k = true →
      lookupMp (mp.map (fun e => if e.1 = k then (k, v) else e)) k = some v := by
  intro mp
  induction mp with
  | nil => intro h; exact absurd h (by simp [hasKey])
  | cons e mp ih =>
    intro h
    by_cases hk : e.1 = k
    · rw [List.map_cons, if_pos hk, lookupMp, List.find?_cons_of_pos _ (by simp)]
      rfl
    · rw [List.map_cons, if_neg hk, lookupMp,
        List.find?_cons_of_neg _ (by simpa using hk)]
      exact ih (by simpa [hasKey, hk] using h)

/-- Lookup of another key in the map-update branch of `storeMp`. -/
theorem lookupMp_mapStore_ne (k k2 : String) (v : Int) (h : k2 ≠ k) :
    ∀ mp : List (String × Int),
      lookupMp (mp.map (fun e => if e.1 = k then (k, v) else e)) k2 =
        lookupMp mp k2 := by
  intro mp
  induction mp with
  | nil => rfl
  | cons e mp ih =>
    by_cases hk : e.1 = k
    · have hne : ¬ ((k, v).1 = k2) := fun hh => h hh.symm
      have hne2 : ¬ (e.1 = k2) := by
        rw [hk]
        exact fun hh => h hh.symm
      rw [List.map_cons, if_pos hk]
      simp only [lookupMp]
      rw [List.find?_cons_of_neg _ (by simpa using hne),
        List.find?_cons_of_neg _ (by simpa using hne2)]
      exact ih
    · by_cases hk2 : e.1 = k2
      · rw [List.map_cons, if_neg hk]
        simp only [lookupMp]
        rw [List.find?_cons_of_pos _ (by simpa using hk2),
          List.find?_cons_of_pos _ (by simpa using hk2)]
      · rw [List.map_cons, if_neg hk]
        simp only [lookupMp]
        rw [List.find?_cons_of_neg _ (by simpa using hk2),
          List.find?_cons_of_neg _ (by simpa using hk2)]
        exact ih

/-- Lookup of another key in the append branch of `storeMp`. -/
theorem lookupMp_append_ne (k k2 : String) (v : Int) (h : k2 ≠ k) :
    ∀ mp : List (String × Int), lookupMp (mp ++ [(k, v)]) k2 = lookupMp mp k2 := by
  intro mp
  induction mp with
  | nil =>
    have hne : ¬ ((k, v).1 = k2) := fun hh => h hh.symm
    simp only [List.nil_append, lookupMp]
    rw [List.find?_cons_of_neg _ (by simpa using hne)]
  | cons e mp ih =>
    by_cases hk2 : e.1 = k2
    · rw [List.cons_append]
      simp only [lookupMp]
      rw [List.find?_cons_of_pos _ (by simpa using hk2),
        List.find?_cons_of_pos _ (by simpa using hk2)]
    · rw [List.cons_append]
      simp only [lookupMp]
      rw [List.find?_cons_of_neg _ (by simpa using hk2),
        List.find?_cons_of_neg _ (by simpa using hk2)]
      exact ih

/-- Looking up the stored key finds the stored value (when the key was
already present, so the replace branch runs). -/
theorem lookupMp_storeMp_self (mp : List (String × Int)) (k : String) (v : Int)
    (h : hasKey mp k = true) : lookupMp (storeMp mp k v) k = some v := by
  rw [storeMp, if_pos h]
  exact lookupMp_mapStore_self k v mp h

/-- Storing one key leaves other keys' lookups unchanged. -/
theorem lookupMp_storeMp_ne (mp : List (String × Int)) (k k2 : String) (v : Int)
    (h : k2 ≠ k) : lookupMp (storeMp mp k v) k2 = lookupMp mp k2 := by
  rw [storeMp]
  by_cases hc : hasKey mp k
  · rw [if_pos hc]
    exact lookupMp_mapStore_ne k k2 v h mp
  · rw [if_neg hc]
    exact lookupMp_append_ne k k2 v h mp

/-- Storing an already-present key does not change which keys are
present. -/
theorem hasKey_storeMp (mp : List (String × Int)) (k k2 : String) (v : Int)
    (h : hasKey mp k = true) : hasKey (storeMp mp k v) k2 = hasKey mp k2 := by
  by_cases hkk : k2 = k
  · subst hkk
    rw [h]
    exact (hasKey_iff_lookup _ _).2 ⟨v, lookupMp_storeMp_self mp k2 v h⟩
  · have hl := lookupMp_storeMp_ne mp k k2 v hkk
    cases hb : hasKey mp k2 with
    | true =>
      obtain ⟨w, hw⟩ := (hasKey_iff_lookup mp k2).1 hb
      exact (hasKey_iff_lookup _ _).2 ⟨w, by rw [hl, hw]⟩
    | false =>
      cases hx : hasKey (storeMp mp k v) k2 with
      | false => rfl
      | true =>
        obtain ⟨w, hw⟩ := (hasKey_iff_lookup _ _).1 hx
        rw [hl] at hw
        have hc2 := (hasKey_iff_lookup mp k2).2 ⟨w, hw⟩
        rw [hb] at hc2
        exact absurd hc2 (by simp)

/-- Seeding never removes a key. -/
theorem hasKey_seedFold_mono (k : String) :
    ∀ (ts : List Team) (mp : List (String × Int)), hasKey mp k = true →
      hasKey (ts.foldl seedStep mp) k = true := by
  intro ts
  induction ts with
  | nil => intro mp h; exact h
  | cons t ts ih =>
    intro mp h
    rw [List.foldl_cons]
    apply ih
    unfold seedStep
    by_cases hc : hasKey mp t.ID
    · rw [if_pos hc]
      exact h
    · rw [if_neg hc, hasKey, List.any_append]
      rw [hasKey] at h
      simp [h]

/-- Every baseline team's id is present after seeding. -/
theorem hasKey_seedFold_mem :
    ∀ (ts : List Team) (mp : List (String × Int)) (tm : Team), tm ∈ ts →
      hasKey (ts.foldl seedStep mp) tm.ID = true := by
  intro ts
  induction ts with
  | nil => intro mp tm h; exact absurd h (by simp)
  | cons t ts ih =>
    intro mp tm h
    rw [List.foldl_cons]
    rcases List.mem_cons.1 h with rfl | h2
    · apply hasKey_seedFold_mono
      unfold seedStep
      by_cases hc : hasKey mp tm.ID
      · rw [if_pos hc]
        exact hc
      · rw [if_neg hc, hasKey, List.any_append]
        simp [hasKey]
    · exact ih _ tm h2

/-- Seeding preserves existing bindings. -/
theorem lookupMp_seedFold_some (k : String) (v : Int) :
    ∀ (ts : List Team) (mp : List (String × Int)), lookupMp mp k = some v →
      lookupMp (ts.foldl seedStep mp) k = some v := by
  intro ts
  induction ts with
  | nil => intro mp h; exact h
  | cons t ts ih =>
    intro mp h
    rw [List.foldl_cons]
    apply ih
    unfold seedStep
    by_cases hc : hasKey mp t.ID
    · rw [if_pos hc]
      exact h
    · rw [if_neg hc]
      by_cases hkt : k = t.ID

      · exfalso
        rw [← hkt] at hc
        exact hc ((hasKey_iff_lookup mp k).2 ⟨v, h⟩)
      · rw [lookupMp_append_ne t.ID k 0 hkt mp]
        exact h

/-- An absent key looks up to the appended binding. -/
theorem lookupMp_append_self (k : String) (w : Int) :
    ∀ mp : List (String × Int), lookupMp mp k = none →
      lookupMp (mp ++ [(k, w)]) k = some w := by
  intro mp
  induction mp with
  | nil =>
    intro _
    rw [List.nil_append, lookupMp, List.find?_cons_of_pos _ (by simp)]
    rfl
  | cons e mp ih =>
    intro h
    by_cases hk : e.1 = k
    · exfalso
      rw [lookupMp, List.find?_cons_of_pos _ (by simpa using hk)] at h
      exact absurd h (by simp)
    · rw [lookupMp, List.find?_cons_of_neg _ (by simpa using hk)] at h
      rw [List.cons_append, lookupMp, List.find?_cons_of_neg _ (by simpa using hk)]
      exact ih h

/-- A baseline team with no binding is seeded at zero. -/
theorem lookupMp_seedFold_zero :
    ∀ (ts : List Team) (mp : List (String × Int)) (tm : Team), tm ∈ ts →
      lookupMp mp tm.ID = none →
      lookupMp (ts.foldl seedStep mp) tm.ID = some 0 := by
  intro ts
  induction ts with
  | nil => intro mp tm h _; exact absurd h (by simp)
  | cons t ts ih =>
    intro mp tm h hnone
    rw [List.foldl_cons]
    by_cases hkt : tm.ID = t.ID
    · have hc : ¬ hasKey mp t.ID = true := by
        rw [← hkt]
        intro hcc
        obtain ⟨w, hw⟩ := (hasKey_iff_lookup _ _).1 hcc
        rw [hnone] at hw
        exact absurd hw (by simp)
      apply lookupMp_seedFold_some
      unfold seedStep
      rw [if_neg hc, hkt]
      apply lookupMp_append_self
      rw [← hkt]
      exact hnone
    · rcases List.mem_cons.1 h with rfl | h2
      · exact absurd rfl hkt
      · apply ih _ tm h2
        unfold seedStep
        by_cases hc : hasKey mp t.ID
        · rw [if_pos hc]
          exact hnone
        · rw [if_neg hc, lookupMp_append_ne t.ID tm.ID 0 hkt mp]
          exact hnone

/-- Seeding is the identity once every baseline id is present. -/
theorem seedFold_of_allKeys :
    ∀ (ts : List Team) (mp : List (String × Int)),
      (∀ tm ∈ ts, hasKey mp tm.ID = true) → ts.foldl seedStep mp = mp := by
  intro ts
  induction ts with
  | nil => intro mp _; rfl
  | cons t ts ih =>
    intro mp h
    rw [List.foldl_cons,
      show seedStep mp t = mp from by rw [seedStep, if_pos (h t (by simp))]]
    exact ih mp (fun tm hm => h tm (List.mem_cons_of_mem t hm))

/-- `teamsAudit.init` is idempotent. -/
theorem auditInit_idem (a : teamsAudit) : auditInit (auditInit a) = auditInit a := by
  unfold auditInit
  rw [teamsAudit.mk.injEq]
  exact ⟨rfl, seedFold_of_allKeys a.teams _
    (fun tm hm => hasKey_seedFold_mem a.teams a.mp tm hm)⟩

/-- No-duplicate-keys invariant of the counter map. -/
def ndk (mp : List (String × Int)) : Prop :=
  (mp.map Prod.fst).Nodup

/-- Seeding preserves the no-duplicate-keys invariant. -/
theorem ndk_seedFold :
    ∀ (ts : List Team) (mp : List (String × Int)), ndk mp →
      ndk (ts.foldl seedStep mp) := by
  intro ts
  induction ts with
  | nil => intro mp h; exact h
  | cons t ts ih =>
    intro mp h
    rw [List.foldl_cons]
    apply ih
    unfold seedStep
    by_cases hc : hasKey mp t.ID
    · rw [if_pos hc]
      exact h
    · rw [if_neg hc]
      rw [ndk, List.map_append, List.nodup_append]
      refine ⟨h, by simp, ?_⟩
      intro x hx hx2
      have hx3 : x = t.ID := by simpa using hx2
      subst hx3
      obtain ⟨e, he, hrw⟩ := List.mem_map.1 hx
      apply hc
      rw [hasKey, List.any_eq_true]
      exact ⟨e, he, by simpa using hrw⟩

/-- Storing an existing key preserves the no-duplicate-keys
invariant. -/
theorem ndk_storeMp (mp : List (String × Int)) (k : String) (v : Int)
    (hk : hasKey mp k = true) (h : ndk mp) : ndk (storeMp mp k v) := by
  rw [storeMp, if_pos hk, ndk, List.map_map]
  have hfun : ∀ e ∈ mp, (Prod.fst ∘ fun e2 : String × Int =>
      if e2.1 = k then (k, v) else e2) e = Prod.fst e := by
    intro e _
    by_cases hek : e.1 = k
    · simp [hek]
    · simp [hek]
  rw [List.map_congr_left hfun]
  exact h

/-- In a no-duplicate-keys map, a member's key looks up to its own
value. -/
theorem lookupMp_of_mem_ndk :
    ∀ (mp : List (String × Int)) (e : String × Int), ndk mp → e ∈ mp →
      lookupMp mp e.1 = some e.2 := by
  intro mp
  induction mp with
  | nil => intro e _ h; exact absurd h (by simp)
  | cons h0 mp ih =>
    intro e hnd hmem
    rcases List.mem_cons.1 hmem with rfl | h2
    · rw [lookupMp, List.find?_cons_of_pos _ (by simp)]
      rfl
    · have hne : ¬ (h0.1 = e.1) := by
        intro he
        rw [ndk, List.map_cons] at hnd
        have := (List.nodup_cons.1 hnd).1
        apply this
        rw [he]
        exact List.mem_map_of_mem _ h2
      rw [lookupMp, List.find?_cons_of_neg _ (by simpa using hne)]
      exact ih e (by
        rw [ndk, List.map_cons] at hnd
        exact (List.nodup_cons.1 hnd).2) h2

/-- The id carried by a (possibly nil) team reference. -/
def teamOptID (team : Option Team) : Option String :=
  team.map Team.ID

/-- Enrichment preserves the reference's id (and its nilness). -/
theorem populate_teamOptID (team : Option Team) (c : List Team) :
    teamOptID (populateTeamByID team c).1 = teamOptID team := by
  cases team with
  | none => rfl
  | some tm =>
    by_cases hid : tm.ID = ""
    · simp [populateTeamByID, hid]
    · rcases hf : GetTeamByID c tm.ID with _ | t2
      · simp [populateTeamByID, hid, hf]
      · have ht2 : t2.ID = tm.ID := by
          have := List.find?_some hf
          simpa using this
        simp [populateTeamByID, hid, hf, teamOptID, ht2]

/-- The counter increment one `ack` contributes for a key. -/
def ackHit (team : Option Team) (k : String) : Int :=
  match team with
  | none => 0
  | some tm => if tm.ID = k then 1 else 0

/-- `ackHit` only depends on the reference's id. -/
theorem ackHit_eq_of_teamOptID (team team2 : Option Team) (k : String)
    (h : teamOptID team = teamOptID team2) : ackHit team k = ackHit team2 k := by
  cases team with
  | none =>
    cases team2 with
    | none => rfl
    | some t2 => exact absurd h (by simp [teamOptID])
  | some tm =>
    cases team2 with
    | none => exact absurd h (by simp [teamOptID])
    | some t2 =>
      have hid : tm.ID = t2.ID := by simpa [teamOptID] using h
      simp [ackHit, hid]

/-- `teamsAudit.ack` written as an equation on the initialised state. -/
theorem auditAck_eq (a : teamsAudit) (tm : Team) :
    auditAck a (some tm) =
      (match lookupMp (auditInit a).mp tm.ID with
       | none => auditInit a
       | some w => ⟨a.teams, storeMp (auditInit a).mp tm.ID (w + 1)⟩) := by
  rcases hl : lookupMp (auditInit a).mp tm.ID with _ | w
  · simp [auditAck, hl]
  · simp only [auditAck, hl, auditSet, auditInit_idem]
    rfl

/-- Initialisation is the identity once every baseline id is
present. -/
theorem auditInit_of_allKeys (b : teamsAudit)
    (h : ∀ tm ∈ b.teams, hasKey b.mp tm.ID = true) : auditInit b = b := by
  obtain ⟨ts, mp⟩ := b
  unfold auditInit
  rw [teamsAudit.mk.injEq]
  exact ⟨rfl, seedFold_of_allKeys ts mp h⟩

/-- All baseline ids are present in an initialised map. -/
theorem allKeys_auditInit (a : teamsAudit) :
    ∀ tm ∈ a.teams, hasKey (auditInit a).mp tm.ID = true := by
  intro tm hm
  exact hasKey_seedFold_mem a.teams a.mp tm hm

/-- One `ack` preserves the team list and bumps the initialised
counter of `k` by the hit of the acked reference. -/
theorem auditAck_lookup (a : teamsAudit) (team : Option Team) (k : String) (v : Int)
    (h : lookupMp (auditInit a).mp k = some v) :
    (auditAck a team).teams = a.teams ∧
    lookupMp (auditInit (auditAck a team)).mp k = some (v + ackHit team k) := by
  cases team with
  | none =>
    refine ⟨rfl, ?_⟩
    rw [show ackHit none k = 0 from rfl]
    simpa using h
  | some tm =>
    rw [auditAck_eq]
    rcases hl : lookupMp (auditInit a).mp tm.ID with _ | w
    · have hne : tm.ID ≠ k := by
        intro he
        rw [he, h] at hl
        exact absurd hl (by simp)
      refine ⟨rfl, ?_⟩
      rw [auditInit_idem, show ackHit (some tm) k = 0 from by simp [ackHit, hne]]
      simpa using h
    · have hkey : hasKey (auditInit a).mp tm.ID = true :=
        (hasKey_iff_lookup _ _).2 ⟨w, hl⟩
      have hinited : auditInit
          (⟨a.teams, storeMp (auditInit a).mp tm.ID (w + 1)⟩ : teamsAudit) =
          ⟨a.teams, storeMp (auditInit a).mp tm.ID (w + 1)⟩ := by
        apply auditInit_of_allKeys
        intro tm2 hm2
        show hasKey (storeMp (auditInit a).mp tm.ID (w + 1)) tm2.ID = true
        rw [hasKey_storeMp _ _ _ _ hkey]
        exact allKeys_auditInit a tm2 hm2
      refine ⟨rfl, ?_⟩
      rw [hinited]
      by_cases hkk : k = tm.ID
      · subst hkk
        rw [h] at hl
        obtain rfl : v = w := by simpa using hl
        rw [lookupMp_storeMp_self _ _ _ hkey]
        simp [ackHit]
      · rw [lookupMp_storeMp_ne _ _ _ _ hkk, h]
        have hne2 : tm.ID ≠ k := fun he => hkk he.symm
        simp [ackHit, hne2]

/-- One `ack` preserves the no-duplicate-keys invariant of the raw
map. -/
theorem ndk_auditAck (a : teamsAudit) (team : Option Team) (h : ndk a.mp) :
    ndk (auditAck a team).mp := by
  cases team with
  | none => exact h
  | some tm =>
    rw [auditAck_eq]
    have hinit : ndk (auditInit a).mp := ndk_seedFold a.teams a.mp h
    rcases hl : lookupMp (auditInit a).mp tm.ID with _ | w
    · exact hinit
    · exact ndk_storeMp _ _ _ ((hasKey_iff_lookup _ _).2 ⟨w, hl⟩) hinit

/-- Total counter hits of a key over a list of matches. -/
def countHits (ms : List Match) (k : String) : Int :=
  (ms.map (fun m => ackHit m.Home.Team k + ackHit m.Away.Team k)).sum

/-- Whether a match fields the team id as home or away. -/
def teamInMatch (k : String) (m : Match) : Bool :=
  (teamOptID m.Home.Team = some k) || (teamOptID m.Away.Team = some k)

/-- An `ack` hit is never negative. -/
theorem ackHit_nonneg (team : Option Team) (k : String) : 0 ≤ ackHit team k := by
  cases team with
  | none => simp [ackHit]
  | some tm =>
    by_cases h : tm.ID = k
    · simp [ackHit, h]
    · simp [ackHit, h]

/-- An `ack` hit vanishes exactly when the reference does not carry the
key. -/
theorem ackHit_zero_iff (team : Option Team) (k : String) :
    ackHit team k = 0 ↔ ¬ teamOptID team = some k := by
  cases team with
  | none => simp [ackHit, teamOptID]
  | some tm =>
    by_cases h : tm.ID = k
    · simp [ackHit, teamOptID, h]
    · simp [ackHit, teamOptID, h]

/-- Hit totals are never negative. -/
theorem countHits_nonneg (ms : List Match) (k : String) : 0 ≤ countHits ms k := by
  induction ms with
  | nil => simp [countHits]
  | cons m ms ih =>
    rw [countHits, List.map_cons, List.sum_cons]
    rw [countHits] at ih
    have h1 := ackHit_nonneg m.Home.Team k
    have h2 := ackHit_nonneg m.Away.Team k
    omega

/-- The hit total vanishes exactly when no match fields the key. -/
theorem countHits_zero_iff (ms : List Match) (k : String) :
    countHits ms k = 0 ↔ ∀ m ∈ ms, teamInMatch k m = false := by
  induction ms with
  | nil => simp [countHits]
  | cons m ms ih =>
    rw [countHits, List.map_cons, List.sum_cons]
    rw [countHits] at ih
    have h1 := ackHit_nonneg m.Home.Team k
    have h2 := ackHit_nonneg m.Away.Team k
    have h3 := countHits_nonneg ms k
    rw [countHits] at h3
    constructor
    · intro h0
      have hH : ackHit m.Home.Team k = 0 := by omega
      have hA : ackHit m.Away.Team k = 0 := by omega
      have hrest : (ms.map (fun m2 => ackHit m2.Home.Team k + ackHit m2.Away.Team k)).sum
          = 0 := by omega
      intro m2 hm2
      rcases List.mem_cons.1 hm2 with rfl | hm3
      · rw [teamInMatch]
        have hH2 := (ackHit_zero_iff _ _).1 hH
        have hA2 := (ackHit_zero_iff _ _).1 hA
        simp [hH2, hA2]
      · exact ih.1 hrest m2 hm3
    · intro hall
      have hm := hall m (by simp)
      rw [teamInMatch] at hm
      have hH : ¬ teamOptID m.Home.Team = some k := by
        intro hc
        simp [hc] at hm
      have hA : ¬ teamOptID m.Away.Team = some k := by
        intro hc
        simp [hc] at hm
      have hH2 := (ackHit_zero_iff m.Home.Team k).2 hH
      have hA2 := (ackHit_zero_iff m.Away.Team k).2 hA
      have hrest := ih.2 (fun m2 hm2 => hall m2 (List.mem_cons_of_mem m hm2))
      omega

/-- The ack fold of `validateTournament`: the team list is preserved
and the initialised counter of a key grows by its hit total. -/
theorem foldAcks_lookup (T : List Team) :
    ∀ (ms : List Match) (a : teamsAudit) (k : String) (c : Int),
      lookupMp (auditInit a).mp k = some c →
      ((ms.foldl (fun a2 m =>
        auditAck (auditAck a2 (populateTeamByID m.Home.Team T).1)
          (populateTeamByID m.Away.Team T).1) a).teams = a.teams ∧
      lookupMp (auditInit (ms.foldl (fun a2 m =>
        auditAck (auditAck a2 (populateTeamByID m.Home.Team T).1)
          (populateTeamByID m.Away.Team T).1) a)).mp k =
        some (c + countHits ms k)) := by
  intro ms
  induction ms with
  | nil =>
    intro a k c h
    refine ⟨rfl, ?_⟩
    rw [show countHits [] k = 0 from rfl]
    simpa using h
  | cons m ms ih =>
    intro a k c h
    rw [List.foldl_cons]
    have h1 := auditAck_lookup a (populateTeamByID m.Home.Team T).1 k c h
    have h2 := auditAck_lookup _ (populateTeamByID m.Away.Team T).1 k _ h1.2
    have h3 := ih _ k _ h2.2
    refine ⟨by rw [h3.1, h2.1, h1.1], ?_⟩
    rw [h3.2]
    have heqH : ackHit (populateTeamByID m.Home.Team T).1 k = ackHit m.Home.Team k :=
      ackHit_eq_of_teamOptID _ _ k (populate_teamOptID m.Home.Team T)
    have heqA : ackHit (populateTeamByID m.Away.Team T).1 k = ackHit m.Away.Team k :=
      ackHit_eq_of_teamOptID _ _ k (populate_teamOptID m.Away.Team T)
    rw [heqH, heqA]
    congr 1
    rw [countHits, countHits, List.map_cons, List.sum_cons]
    omega

/-- The ack fold preserves the no-duplicate-keys invariant. -/
theorem ndk_foldAcks (T : List Team) :
    ∀ (ms : List Match) (a : teamsAudit), ndk a.mp →
      ndk ((ms.foldl (fun a2 m =>
        auditAck (auditAck a2 (populateTeamByID m.Home.Team T).1)
          (populateTeamByID m.Away.Team T).1) a)).mp := by
  intro ms
  induction ms with
  | nil => intro a h; exact h
  | cons m ms ih =>
    intro a h
    rw [List.foldl_cons]
    exact ih _ (ndk_auditAck _ _ (ndk_auditAck _ _ h))

/-- Two strings with distinct head characters differ. -/
theorem ne_of_head_ne (s1 s2 : String) (c1 c2 : Char) (l1 l2 : List Char)
    (h1 : s1.data = c1 :: l1) (h2 : s2.data = c2 :: l2) (h : c1 ≠ c2) : s1 ≠ s2 := by
  intro he
  rw [he, h2] at h1
  injection h1 with hc _
  exact h hc.symm

/-- The head character of an append with a non-empty literal prefix. -/
theorem head_of_append_lit (pre : String) (c : Char) (l : List Char)
    (h : pre.data = c :: l) (rest : String) :
    ∃ l2, (pre ++ rest).data = c :: l2 :=
  ⟨l ++ rest.data, by rw [String.data_append, h]; rfl⟩

/-- Gluing the count digit onto the message tail. -/
theorem strAppend_count0 (a : String) :
    (a ++ "': count ") ++ "0" = a ++ "': count 0" := by
  apply String.ext
  rw [String.data_append, String.data_append, String.data_append, List.append_assoc]
  congr 1

/-- The zero-count audit message determines the team id. -/
theorem msg_key_inj (a b : String)
    (h : ("team id '" ++ a) ++ "': count 0" = ("team id '" ++ b) ++ "': count 0") :
    a = b := by
  have hd := congrArg String.data h
  rw [String.data_append, String.data_append, String.data_append,
    String.data_append] at hd
  have h2 := List.append_cancel_right hd
  have h3 := List.append_cancel_left h2
  exact String.ext h3

/-- C6: for every team of `Tournament.Teams`, `Validate` reports
`team id '<id>': count 0` exactly when no match of the tournament fields
that team id as home or away competitor (the at-least-once audit mode). -/
theorem validateTournament_coverage (t : Tournament) (tm : Team) (hmem : tm ∈ t.Teams) :
    (("team id '" ++ tm.ID ++ "': count 0") ∈ validateTournament t) ↔
      ∀ m ∈ t.Matches, teamInMatch tm.ID m = false := by
  have hlook0 : lookupMp (auditInit (⟨t.Teams, []⟩ : teamsAudit)).mp tm.ID = some 0 := by
    show lookupMp (t.Teams.foldl seedStep []) tm.ID = some 0
    exact lookupMp_seedFold_zero t.Teams [] tm hmem rfl
  have hlook : lookupMp (auditInit (tournamentAudit t)).mp tm.ID
      = some (0 + countHits t.Matches tm.ID) := by
    rw [tournamentAudit]
    exact (foldAcks_lookup t.Teams t.Matches ⟨t.Teams, []⟩ tm.ID 0 hlook0).2
  have hndkA : ndk (tournamentAudit t).mp := by
    rw [tournamentAudit]
    exact ndk_foldAcks t.Teams t.Matches ⟨t.Teams, []⟩ (by simp [ndk])
  have hndk : ndk (auditInit (tournamentAudit t)).mp := ndk_seedFold _ _ hndkA
  have hmT : ∃ l2, (("team id '" ++ tm.ID) ++ "': count 0").data = 't' :: l2 := by
    obtain ⟨l1, hl1⟩ :=
      head_of_append_lit "team id '" 't' ("eam id '".data) (by decide) tm.ID
    exact head_of_append_lit _ 't' l1 hl1 "': count 0"
  have hnotT : ∀ (s : String) (c : Char) (l : List Char), s.data = c :: l →
      c ≠ 't' → ¬ ("team id '" ++ tm.ID ++ "': count 0") = s := by
    intro s c l hs hc he
    obtain ⟨l2, hl2⟩ := hmT
    exact ne_of_head_ne _ s 't' c l2 l hl2 hs (fun h2 => hc h2.symm) he
  constructor
  · intro hin
    rw [validateTournament] at hin
    simp only [List.mem_append] at hin
    rcases hin with (((hA | hB) | hC) | hD) | hE
    · revert hA
      split
      · intro hA
        exact absurd (List.mem_singleton.1 hA)
          (hnotT _ 'i' ("d: is empty".data) (by decide) (by decide))
      · intro hA
        exact absurd hA (by simp)
    · revert hB
      split
      · intro hB
        exact absurd (List.mem_singleton.1 hB)
          (hnotT _ 'n' ("ame: is empty".data) (by decide) (by decide))
      · intro hB
        exact absurd hB (by simp)
    · revert hC
      split
      · intro hC
        exact absurd (List.mem_singleton.1 hC)
          (hnotT _ 'i' ("mage url: is empty".data) (by decide) (by decide))
      · intro hC
        exact absurd hC (by simp)
    · obtain ⟨inner, hinner, hmsg⟩ := List.mem_flatten.1 hD
      obtain ⟨p, hp, rfl⟩ := List.mem_map.1 hinner
      obtain ⟨e, he, hmsg2⟩ := List.mem_map.1 hmsg
      obtain ⟨l1, hl1⟩ :=
        head_of_append_lit "match " 'm' ("atch ".data) (by decide) (toString (p.1 + 1))
      obtain ⟨l2, hl2⟩ := head_of_append_lit _ 'm' l1 hl1 ": "
      obtain ⟨l3, hl3⟩ := head_of_append_lit _ 'm' l2 hl2 e
      exact absurd hmsg2.symm (hnotT _ 'm' l3 hl3 (by decide))
    · rw [auditValidate, auditValidateEntries] at hE
      have hE2 := (List.perm_insertionSort _ _).mem_iff.1 hE
      obtain ⟨e, hef, hmsg⟩ := List.mem_map.1 hE2
      obtain ⟨hemem, hpred⟩ := List.mem_filter.1 hef
      have he2 : e.2 = 0 := by simpa using hpred
      rw [he2, show toString (0 : Int) = "0" from rfl, strAppend_count0] at hmsg
      have hkey : e.1 = tm.ID := msg_key_inj e.1 tm.ID hmsg
      have hle : lookupMp (auditInit (tournamentAudit t)).mp e.1 = some e.2 :=
        lookupMp_of_mem_ndk _ e hndk hemem
      rw [hkey, hlook] at hle
      have h4 : (0 : Int) + countHits t.Matches tm.ID = e.2 := by simpa using hle
      have hcz : countHits t.Matches tm.ID = 0 := by omega
      exact (countHits_zero_iff _ _).1 hcz
  · intro hall
    have hcz : countHits t.Matches tm.ID = 0 := (countHits_zero_iff _ _).2 hall
    rw [hcz] at hlook
    have hlook2 : lookupMp (auditInit (tournamentAudit t)).mp tm.ID = some 0 := by
      simpa using hlook
    rw [lookupMp] at hlook2
    rcases hf : (auditInit (tournamentAudit t)).mp.find? (fun e => e.1 = tm.ID)
      with _ | e
    · rw [hf] at hlook2
      exact absurd hlook2 (by simp)
    · rw [hf] at hlook2
      have he2 : e.2 = 0 := by simpa using hlook2
      have hemem : e ∈ (auditInit (tournamentAudit t)).mp :=
        List.mem_of_find?_eq_some hf
      have hekey : e.1 = tm.ID := by simpa using List.find?_some hf
      rw [validateTournament]
      simp only [List.mem_append]
      refine Or.inr ?_
      rw [auditValidate, auditValidateEntries]
      apply (List.perm_insertionSort _ _).mem_iff.2
      apply List.mem_map.2
      refine ⟨e, List.mem_filter.2 ⟨hemem, by simp [he2]⟩, ?_⟩
      rw [hekey, he2, show toString (0 : Int) = "0" from rfl]
      exact strAppend_count0 _

/-- The C6 coverage match: it fields only the first team, as home. -/
def cexMatchC6 : Match :=
  { ID := "M1", Timestamp := none, Stage := 0,
    Home := { Team := some ⟨"tA", "A", ""⟩, Goals := 0, YellowCards := 0,
              OwnGoals := [], RedCards := [] },
    Away := { Team := none, Goals := 0, YellowCards := 0,
              OwnGoals := [], RedCards := [] },
    Winner := none, Completed := false }

/-- The C6 coverage tournament assembled from `cexMatchC6`. -/
def cexTournC6 : Tournament :=
  { ID := "T1", Name := "Cup", ImageURL := "http://img",
    Teams := [⟨"tA", "A", ""⟩, ⟨"tB", "B", ""⟩],
    Matches := [cexMatchC6] }

/-- Witness for the C6 theorem on a concrete two-team tournament. -/
theorem validateTournament_coverage_witness :
    (⟨"tB", "B", ""⟩ : Team) ∈ cexTournC6.Teams ∧
    ("team id '" ++ (⟨"tB", "B", ""⟩ : Team).ID ++ "': count 0")
      ∈ validateTournament cexTournC6 :=
  ⟨by decide,
    (validateTournament_coverage cexTournC6 ⟨"tB", "B", ""⟩ (by decide)).mpr
      (by decide)⟩

end SMG
